import Mathlib

/-!
Verification of the grid-dash backtesting engine (`src/services/bot_corrected_v23.py`).

The engine is embedded shallowly over `ℚ`: Python floats become exact rationals
(the idealised arithmetic the spec reasons in, with its explicit 1e-8 tolerance),
Python exceptions become `Except String`, the `self.grids` dict (float-keyed,
insertion-ordered) becomes an insertion-ordered association list, and the two
wall-clock reads (`pd.Timestamp.now()` for the seed lot, the module-load
`datetime.now()` baked into `BOT_VERSION`) become explicit parameters `now` and
`version_time`.  `numpy` helpers are modelled by their documented semantics:
`np.linspace(a, b, n)` yields `a + i*(b-a)/(n-1)`, `np.isclose(a, b)` tests
`|a-b| ≤ 1e-8 + 1e-5*|b|`, Python `round(x, 4)` rounds half to even, and
Python `sorted` is a comparison sort (any comparison sort of rationals returns
the same value list).  The single real-valued operation, the geometric ratio
`(upper/lower) ** (1/num_grids)`, is not rational; it is passed in as the
parameter `ratio`, characterised in theorems by `lower * ratio ^ num = upper`.
-/

namespace GridDash

/-- Side of a grid level, the string field `GridState.side` of the source
(`'buy'`, `'sell'` or `'blocked'`). -/
inductive Side where
  | buy : Side
  | sell : Side
  | blocked : Side
deriving DecidableEq

/-- One FIFO inventory lot: the source's tuple `(amount, buy_price, timestamp)`
held in `self.coin_inventory`.  Timestamps are opaque rationals. -/
structure Lot where
  amount : ℚ
  price : ℚ
  ts : ℚ
deriving DecidableEq

/-- The `GridState` dataclass of the source. -/
structure GridState where
  price : ℚ
  side : Side
  trade_amount : ℚ
  coin_reserved : ℚ
  trade_count : ℕ
deriving DecidableEq

/-- One entry of `self.trade_log` (the dict appended in `_execute_trade`):
timestamp, type (the level's side at execution), current close, grid price,
amount, fee, realized profit. -/
structure TradeEntry where
  ts : ℚ
  type : Side
  cprice : ℚ
  price : ℚ
  amount : ℚ
  fee : ℚ
  profit : ℚ
deriving DecidableEq

/-- One candle; the engine reads only `timestamp`, `open` (first candle) and
`close`.  The `open` field is named `open_` since `open` is a Lean keyword. -/
structure Candle where
  ts : ℚ
  open_ : ℚ
  close : ℚ
deriving DecidableEq

/-- The mutable state of a `GridBot` instance: everything `__init__` sets up.
`usdt`/`coin` are `self.position['usdt']`/`['coin']`; `grids` is the
insertion-ordered float-keyed dict `self.grids`. -/
structure BotState where
  grid_lines : List ℚ
  fee_rate : ℚ
  usdt : ℚ
  coin : ℚ
  initial_coin : ℚ
  trade_log : List TradeEntry
  grids : List (ℚ × GridState)
  last_price : Option ℚ
  last_traded_price : Option ℚ
  coin_inventory : List Lot
  base_amount_usdt : ℚ
deriving DecidableEq

/-- Python `round` to an integer: round half to even (banker's rounding). -/
def roundHalfEven (x : ℚ) : ℤ :=
  if Int.fract x < 1/2 then ⌊x⌋
  else if 1/2 < Int.fract x then ⌊x⌋ + 1
  else if ⌊x⌋ % 2 = 0 then ⌊x⌋ else ⌊x⌋ + 1

/-- Python `round(x, 4)`, as used on grid prices in the source. -/
def pyRound4 (x : ℚ) : ℚ := (roundHalfEven (x * 10000) : ℚ) / 10000

/-- `np.isclose(a, b)` with numpy's default tolerances
`rtol = 1e-5`, `atol = 1e-8`: `|a - b| ≤ atol + rtol * |b|`. -/
abbrev npIsClose (a b : ℚ) : Prop := |a - b| ≤ 1/100000000 + |b| / 100000

/-- Python `sorted` on a list of numbers (any comparison sort of rationals
produces the same value list, so a concrete sort stands in for Timsort). -/
def pySorted (l : List ℚ) : List ℚ := l.insertionSort (· ≤ ·)

/-- Python dict assignment `d[k] = v`: replace the value at an existing key in
place, else append the binding at the tail (insertion order). -/
def dictInsert (k : ℚ) (v : GridState) : List (ℚ × GridState) → List (ℚ × GridState)
  | [] => [(k, v)]
  | (k', v') :: d => if k' = k then (k, v) :: d else (k', v') :: dictInsert k v d

/-- Python dict lookup `d.get(k)`: the value at the first (unique) matching key. -/
def dictGet (k : ℚ) (d : List (ℚ × GridState)) : Option GridState :=
  (d.find? (fun e => decide (e.1 = k))).map (fun e => e.2)

/-- Mutation of the object stored at key `k` (`d[k].side = ...` in the source). -/
def dictSet (k : ℚ) (f : GridState → GridState) : List (ℚ × GridState) → List (ℚ × GridState)
  | [] => []
  | (k', v') :: d => if k' = k then (k', f v') :: d else (k', v') :: dictSet k f d

/-- `GridBot._validate_inputs`, in source order.  (The `isinstance` numeric
check has no counterpart over `ℚ`, where every value is numeric.) -/
def validate_inputs (_total_investment lower_price upper_price : ℚ)
    (num_grids : ℕ) (fee_rate : ℚ) : Except String Unit :=
  if lower_price ≥ upper_price then .error "Upper price must be > lower price"
  else if num_grids < 2 then .error "Minimum 2 grid levels required"
  else if ¬(0 ≤ fee_rate ∧ fee_rate < 1/10) then .error "Fee must be between 0% and 10%"
  else .ok ()

/-- `GridBot._calculate_grid_lines`.  Arithmetic mode is `np.linspace`;
geometric mode rounds each `lower * ratio ** i` to 4 decimal places, where
`ratio` stands for the real number `(upper/lower) ** (1/num)` computed by the
source (passed in because it is irrational in general).  Any other mode string
leaves `lines` at its initial value `[]`. -/
def calculate_grid_lines (lower upper : ℚ) (num : ℕ) (mode : String) (ratio : ℚ) : List ℚ :=
  let lines : List ℚ := []
  let lines := if mode = "arithmetic" then
      pySorted ((List.range (num + 1)).map
        (fun i : ℕ => lower + (i : ℚ) * (upper - lower) / (num : ℚ)))
    else lines
  let lines := if mode = "geometric" then
      pySorted ((List.range (num + 1)).map (fun i => pyRound4 (lower * ratio ^ i)))
    else lines
  lines

/-- The per-line loop of `GridBot._initialize_grids` (its "2. Teil"): levels
above the initial price become sell grids, levels below become buy grids, a
level exactly at the initial price gets no entry at all.  The debug print
`self.grids[price].trade_amount` then indexes the dict unconditionally, so a
level exactly at the initial price raises `KeyError`. -/
def init_grids_loop (ip base fr : ℚ) :
    List ℚ → List (ℚ × GridState) → Except String (List (ℚ × GridState))
  | [], d => .ok d
  | price :: rest, d =>
    let d' :=
      if ip < price then
        dictInsert price ⟨pyRound4 price, .sell, base / (price * (1 + fr)), base / (price * (1 + fr)), 0⟩ d
      else if price < ip then
        dictInsert price ⟨pyRound4 price, .buy, base / (price * (1 + fr)), 0, 0⟩ d
      else d
    match dictGet price d' with
    | some _ => init_grids_loop ip base fr rest d'
    | none => .error "KeyError"

/-- `GridBot._initialize_grids`: seed purchase of half the capital at the
initial price (fee charged, one lot appended, not logged), then the per-line
loop.  `now` is the `pd.Timestamp.now()` stamped on the seed lot. -/
def init_grids (st : BotState) (total_investment : ℚ) (initial_price : Option ℚ)
    (now : ℚ) : Except String BotState :=
  let ip? : Except String ℚ :=
    match initial_price with
    | some p => .ok p
    | none =>
      match st.grid_lines.get? (st.grid_lines.length / 2) with
      | some p => .ok p
      | none => .error "IndexError"
  match ip? with
  | .error e => .error e
  | .ok ip =>
    let initial_investment := total_investment / 2
    let ic := initial_investment / (ip * (1 + st.fee_rate))
    let fee := ic * ip * st.fee_rate
    let st' := { st with
      usdt := st.usdt - (ic * ip + fee),
      coin := st.coin + ic,
      initial_coin := ic,
      coin_inventory := st.coin_inventory ++ [Lot.mk ic ip now] }
    match init_grids_loop ip st'.base_amount_usdt st'.fee_rate st'.grid_lines st'.grids with
    | .ok d => .ok { st' with grids := d }
    | .error e => .error e

/-- `GridBot.__init__`: validation, grid-line computation, initial position,
then `_initialize_grids`.  Any exception propagates (the constructor has no
handler of its own). -/
def mkGridBot (total_investment lower_price upper_price : ℚ) (num_grids : ℕ)
    (grid_mode : String) (fee_rate : ℚ) (initial_price : Option ℚ)
    (now ratio : ℚ) : Except String BotState :=
  match validate_inputs total_investment lower_price upper_price num_grids fee_rate with
  | .error e => .error e
  | .ok _ =>
    let lines := calculate_grid_lines lower_price upper_price num_grids grid_mode ratio
    let st : BotState := {
      grid_lines := lines
      fee_rate := fee_rate
      usdt := total_investment
      coin := 0
      initial_coin := 0
      trade_log := []
      grids := []
      last_price := initial_price
      last_traded_price := none
      coin_inventory := []
      base_amount_usdt := total_investment * (99/100) / num_grids }
    init_grids st total_investment initial_price now

/-- Write `side := s` on the grid object at key `k`; `KeyError` if the key is
absent (`self.grids[price].side = ...`). -/
def setSide (k : ℚ) (s : Side) (d : List (ℚ × GridState)) :
    Except String (List (ℚ × GridState)) :=
  match dictGet k d with
  | none => .error "KeyError"
  | some _ => .ok (dictSet k (fun g => { g with side := s }) d)

/-- The loop of `GridBot._update_grid_sides` over `self.grid_lines`:
skip lines `np.isclose` to the reference price; the blocked line keeps/gets
side `blocked`; lines above become sell, lines below become buy. -/
def update_sides_loop (current : ℚ) (blocked : Option ℚ) :
    List ℚ → List (ℚ × GridState) → Except String (List (ℚ × GridState))
  | [], d => .ok d
  | price :: rest, d =>
    if npIsClose price current then update_sides_loop current blocked rest d
    else if some price = blocked then
      match setSide price .blocked d with
      | .ok d' => update_sides_loop current blocked rest d'
      | .error e => .error e
    else if current < price then
      match setSide price .sell d with
      | .ok d' => update_sides_loop current blocked rest d'
      | .error e => .error e
    else if price < current then
      match setSide price .buy d with
      | .ok d' => update_sides_loop current blocked rest d'
      | .error e => .error e
    else update_sides_loop current blocked rest d

/-- `GridBot._update_grid_sides`. -/
def update_grid_sides (st : BotState) (current : ℚ) (blocked : Option ℚ) :
    Except String BotState :=
  match update_sides_loop current blocked st.grid_lines st.grids with
  | .ok d => .ok { st with grids := d }
  | .error e => .error e

/-- The FIFO while-loop of the SELL branch of `GridBot._execute_trade`:
`while remaining_amount > 0 and self.coin_inventory:` consume the oldest lot,
splitting it when larger than needed.  Returns (remaining amount, accumulated
profit, resulting inventory).  Note that lots are consumed as the loop runs,
before any shortfall is detected. -/
def fifoLoop (p : ℚ) : ℚ → List Lot → ℚ → ℚ × ℚ × List Lot
  | r, inv, acc =>
    if r ≤ 0 then (r, acc, inv)
    else
      match inv with
      | [] => (r, acc, inv)
      | lot :: rest =>
        let sell := min lot.amount r
        let acc' := acc + (p - lot.price) * sell
        if lot.amount = sell then fifoLoop p (r - sell) rest acc'
        else (r - sell, acc', ⟨lot.amount - sell, lot.price, lot.ts⟩ :: rest)

/-- `GridBot._execute_trade` on the grid object at index `i` of the insertion
order of `self.grids`.  SELL: run the FIFO loop; on remaining shortfall return
with the (already mutated) inventory and nothing else changed; on success
charge the fee, move the balances, log, record the last-traded price and bump
the level's trade count.  BUY (the `else` branch): no-op if USDT is short,
else debit `required_usdt`, credit coin, append a lot, log with profit 0. -/
def execute_trade (st : BotState) (i : ℕ) (c : Candle) : BotState :=
  match st.grids.get? i with
  | none => st
  | some (k, g) =>
    if g.side = .sell then
      let res := fifoLoop g.price g.trade_amount st.coin_inventory 0
      if 0 < res.1 then { st with coin_inventory := res.2.2 }
      else
        let fee := g.trade_amount * g.price * st.fee_rate
        { st with
          coin_inventory := res.2.2
          coin := st.coin - g.trade_amount
          usdt := st.usdt + (g.trade_amount * g.price - fee)
          trade_log := st.trade_log ++
            [TradeEntry.mk c.ts g.side c.close g.price g.trade_amount fee (res.2.1 - fee)]
          last_traded_price := some g.price
          grids := st.grids.set i (k, { g with trade_count := g.trade_count + 1 }) }
    else
      let required_usdt := g.trade_amount * g.price * (1 + st.fee_rate)
      if st.usdt < required_usdt then st
      else
        let fee := g.trade_amount * g.price * st.fee_rate
        { st with
          usdt := st.usdt - required_usdt
          coin := st.coin + g.trade_amount
          coin_inventory := st.coin_inventory ++ [Lot.mk g.trade_amount g.price c.ts]
          trade_log := st.trade_log ++
            [TradeEntry.mk c.ts g.side c.close g.price g.trade_amount fee 0]
          last_traded_price := some g.price
          grids := st.grids.set i (k, { g with trade_count := g.trade_count + 1 }) }

/-- The per-grid body of the crossing scan in `GridBot.process_candle`: if the
candle's move strictly brackets the level in the direction of its side, and
the level is neither the last-traded price nor the current close, execute the
trade, then mark the level blocked and advance `self.last_price`. -/
def scan_grid (prev current : ℚ) (c : Candle) (st : BotState) (i : ℕ) : BotState :=
  match st.grids.get? i with
  | none => st
  | some (_, g) =>
    if (prev < g.price ∧ g.price < current ∧ g.side = .sell) ∨
       (current < g.price ∧ g.price < prev ∧ g.side = .buy) then
      if st.last_traded_price ≠ some g.price ∧ g.price ≠ current then
        let st' := execute_trade st i c
        let st'' :=
          match st'.grids.get? i with
          | some (k', g') => { st' with grids := st'.grids.set i (k', { g' with side := Side.blocked }) }
          | none => st'
        { st'' with last_price := some current }
      else st
    else st

/-- One pass of `for grid in self.grids.values(): ...` in insertion order. -/
def scan_pass (prev current : ℚ) (c : Candle) (st : BotState) : BotState :=
  (List.range st.grids.length).foldl (scan_grid prev current c) st

/-- The crossing detection of `GridBot.process_candle`:
`for price in np.linspace(prev_price, current_price, 20)` repeats the grid
scan 20 times (the loop body never reads the interpolated point itself). -/
def scan_points (prev current : ℚ) (c : Candle) (st : BotState) : BotState :=
  (List.range 20).foldl (fun s _ => scan_pass prev current c s) st

/-- `GridBot.process_candle`: re-derive the grid sides from the previous close
(blocking the last-traded level), then run the interpolated-path scan.  Any
exception propagates to the caller (re-wrapped as `RuntimeError` there, which
only changes the message). -/
def process_candle (st : BotState) (c : Candle) : Except String BotState :=
  let current := c.close
  let prev := st.last_price.getD c.open_
  let ltp := (st.last_traded_price.getD prev)
  (update_grid_sides st prev (some ltp)).map (scan_points prev current c)

/-- The candle loop of `simulate_grid_bot` (`for _, candle in df.iloc[1:]`). -/
def run_candles (st : BotState) : List Candle → Except String BotState
  | [] => .ok st
  | c :: rest =>
    match process_candle st c with
    | .error e => .error e
    | .ok st' => run_candles st' rest

/-- The result dict of `simulate_grid_bot`.  `final_usdt`/`final_coin` are the
`final_position` entries; `bot_version` keeps the wall-clock component of the
`BOT_VERSION` string (the module-load `datetime.now()`). -/
structure SimResult where
  initial_investment : ℚ
  final_value : ℚ
  profit_usdt : ℚ
  profit_pct : ℚ
  fees_paid : ℚ
  num_trades : ℕ
  trade_log : List TradeEntry
  grid_lines : List ℚ
  final_usdt : ℚ
  final_coin : ℚ
  initial_coin : ℚ
  reserved_coin : ℚ
  initial_price : ℚ
  final_price : ℚ
  price_change_pct : ℚ
  bot_version : ℚ
  error : Option String
deriving DecidableEq

/-- The `except` branch of `simulate_grid_bot`: a fallback result carrying the
exception message. -/
def errorResult (total_investment version_time : ℚ) (e : String) : SimResult where
  initial_investment := total_investment
  final_value := total_investment
  profit_usdt := 0
  profit_pct := 0
  fees_paid := 0
  num_trades := 0
  trade_log := []
  grid_lines := []
  final_usdt := total_investment
  final_coin := 0
  initial_coin := 0
  reserved_coin := 0
  initial_price := 0
  final_price := 0
  price_change_pct := 0
  bot_version := version_time
  error := some e

/-- `simulate_grid_bot`: build the bot from the first candle's close, replay
the remaining candles, aggregate.  `now` is the seed-lot wall-clock stamp,
`version_time` the module-load stamp in `BOT_VERSION`, `ratio` the real-valued
geometric ratio (unused in arithmetic mode). -/
def simulate_grid_bot (df : List Candle) (total_investment lower_price upper_price : ℚ)
    (num_grids : ℕ) (grid_mode : String) (fee_rate : ℚ)
    (now version_time ratio : ℚ) : SimResult :=
  match df with
  | [] => errorResult total_investment version_time "IndexError"
  | c0 :: rest =>
    let initial_price := c0.close
    match mkGridBot total_investment lower_price upper_price num_grids grid_mode
        fee_rate (some initial_price) now ratio with
    | .error e => errorResult total_investment version_time e
    | .ok bot0 =>
      match run_candles bot0 rest with
      | .error e => errorResult total_investment version_time e
      | .ok bot =>
        let final_price := (rest.getLast?.getD c0).close
        let final_value := bot.usdt + bot.coin * final_price
        let total_profit := final_value - total_investment
        let total_fees := (bot.trade_log.map (fun t => t.fee)).sum
        { initial_investment := total_investment
          final_value := final_value
          profit_usdt := total_profit
          profit_pct := total_profit / total_investment * 100
          fees_paid := total_fees
          num_trades := bot.trade_log.length
          trade_log := bot.trade_log
          grid_lines := bot.grid_lines
          final_usdt := bot.usdt
          final_coin := bot.coin
          initial_coin := bot.initial_coin
          reserved_coin := 0
          initial_price := initial_price
          final_price := final_price
          price_change_pct := (final_price - initial_price) / initial_price * 100
          bot_version := version_time
          error := none }

/-- Total coin amount held in a lot list (`Σ lot.amount` of the spec). -/
def sumAmounts (inv : List Lot) : ℚ := (inv.map (fun l => l.amount)).sum

/-- The spec's FIFO realized profit: the sum over consumed lot slices of
`(sell_price - lot.price) * slice_amount`, consuming `r` oldest-first. -/
def fifoProfit (p : ℚ) : ℚ → List Lot → ℚ
  | _, [] => 0
  | r, lot :: rest =>
    if r ≤ 0 then 0
    else (p - lot.price) * min lot.amount r + fifoProfit p (r - min lot.amount r) rest

/-- The spec's FIFO removal: the inventory left after consuming `r` oldest
first, splitting the head lot when it is larger than the remainder. -/
def fifoRemove : ℚ → List Lot → List Lot
  | _, [] => []
  | r, lot :: rest =>
    if r ≤ 0 then lot :: rest
    else if lot.amount = min lot.amount r then fifoRemove (r - min lot.amount r) rest
    else ⟨lot.amount - min lot.amount r, lot.price, lot.ts⟩ :: rest

/-- Trade count of the grid at insertion index `i` (0 when out of range). -/
def tcAt (st : BotState) (i : ℕ) : ℕ :=
  ((st.grids.get? i).map (fun e => e.2.trade_count)).getD 0

/-- Side of the grid at insertion index `i`. -/
def sideAt (st : BotState) (i : ℕ) : Option Side :=
  (st.grids.get? i).map (fun e => e.2.side)

/-- Stored (rounded) price of the grid at insertion index `i`. -/
def priceAt (st : BotState) (i : ℕ) : Option ℚ :=
  (st.grids.get? i).map (fun e => e.2.price)

/-- Sum of all levels' trade counts. -/
def totalTC (st : BotState) : ℕ := (st.grids.map (fun e => e.2.trade_count)).sum

/-- A lot with its timestamp forgotten (for the determinism analysis: lot
timestamps never reach the trade log or the result). -/
def eraseLotTs (lot : Lot) : Lot := ⟨lot.amount, lot.price, 0⟩

/-- States identical up to inventory timestamps. -/
def invSim (l1 l2 : List Lot) : Prop := l1.map eraseLotTs = l2.map eraseLotTs

/-- Two bot states that agree on every field except that their inventories
may carry different lot timestamps. -/
def botSim (st1 st2 : BotState) : Prop :=
  st2 = { st1 with coin_inventory := st2.coin_inventory } ∧
  invSim st1.coin_inventory st2.coin_inventory

/-- A bot state holding one lot of 1 coin facing a sell level demanding 2:
a concrete insufficient-inventory SELL attempt. -/
def sellShortState : BotState where
  grid_lines := [100, 105]
  fee_rate := 1/1000
  usdt := 0
  coin := 1
  initial_coin := 1
  trade_log := []
  grids := [(105, ⟨105, Side.sell, 2, 2, 0⟩)]
  last_price := some 100
  last_traded_price := none
  coin_inventory := [⟨1, 100, 0⟩]
  base_amount_usdt := 495/2

/-- A bot state with two lots (1 @ 100, 1 @ 99) facing a sell level demanding
3/2: a sufficient-inventory SELL attempt that splits the second lot. -/
def sellOkState : BotState where
  grid_lines := [99, 101]
  fee_rate := 1/1000
  usdt := 50
  coin := 2
  initial_coin := 2
  trade_log := []
  grids := [(101, ⟨101, Side.sell, 3/2, 3/2, 0⟩)]
  last_price := some 100
  last_traded_price := none
  coin_inventory := [⟨1, 100, 0⟩, ⟨1, 99, 1⟩]
  base_amount_usdt := 495/2

/-- A bot state facing a buy level demanding 2 @ 99 with ample USDT. -/
def buyOkState : BotState where
  grid_lines := [99, 101]
  fee_rate := 1/1000
  usdt := 500
  coin := 0
  initial_coin := 0
  trade_log := []
  grids := [(99, ⟨99, Side.buy, 2, 0, 0⟩)]
  last_price := some 100
  last_traded_price := none
  coin_inventory := []
  base_amount_usdt := 495/2

/-- The same buy attempt with only 1 USDT on hand: an insufficient-funds BUY. -/
def buyPoorState : BotState where
  grid_lines := [99, 101]
  fee_rate := 1/1000
  usdt := 1
  coin := 0
  initial_coin := 0
  trade_log := []
  grids := [(99, ⟨99, Side.buy, 2, 0, 0⟩)]
  last_price := some 100
  last_traded_price := none
  coin_inventory := []
  base_amount_usdt := 495/2

/-- A candle used with the concrete states above. -/
def cA : Candle := ⟨7, 100, 106⟩

/-- The bot state `GridBot(1000, 100, 120, 2, 'arithmetic', 0.001, 105)`
builds (seed lot stamped 0): lines [100, 110, 120], seed purchase of
100000/21021 coin at 105, one buy grid and two sell grids. -/
def botFlat : BotState where
  grid_lines := [100, 110, 120]
  fee_rate := 1/1000
  usdt := 500
  coin := 100000/21021
  initial_coin := 100000/21021
  trade_log := []
  grids := [(100, ⟨100, Side.buy, 450/91, 0, 0⟩),
            (110, ⟨110, Side.sell, 4500/1001, 4500/1001, 0⟩),
            (120, ⟨120, Side.sell, 375/91, 375/91, 0⟩)]
  last_price := some 105
  last_traded_price := none
  coin_inventory := [⟨100000/21021, 105, 0⟩]
  base_amount_usdt := 495

/-- First candle of the flat-price run (used only for initialization). -/
def c0Flat : Candle := ⟨0, 105, 105⟩

/-- Second candle of the flat-price run: close equal to the previous close. -/
def cFlat : Candle := ⟨1, 105, 105⟩

/-- The bot state `GridBot(1000, 100, 102, 2, 'arithmetic', 0, 100.5)`
builds (seed lot stamped 0): the seed lot holds 1000/201 coin but the two
sell levels demand 495/101 + 165/34 in total — more than the seed. -/
def bot2 : BotState where
  grid_lines := [100, 101, 102]
  fee_rate := 0
  usdt := 500
  coin := 1000/201
  initial_coin := 1000/201
  trade_log := []
  grids := [(100, ⟨100, Side.buy, 99/20, 0, 0⟩),
            (101, ⟨101, Side.sell, 495/101, 495/101, 0⟩),
            (102, ⟨102, Side.sell, 165/34, 165/34, 0⟩)]
  last_price := some (201/2)
  last_traded_price := none
  coin_inventory := [⟨1000/201, 201/2, 0⟩]
  base_amount_usdt := 495

/-- The candle that drives `bot2` from 100.5 up through both sell levels. -/
def c2candle : Candle := ⟨1, 201/2, 205/2⟩

/-- `bot2` after the sell at 101 has executed (mid-candle state). -/
def bot2M : BotState where
  grid_lines := [100, 101, 102]
  fee_rate := 0
  usdt := 995
  coin := 1505/20301
  initial_coin := 1000/201
  trade_log := [⟨1, Side.sell, 205/2, 101, 495/101, 0, 495/202⟩]
  grids := [(100, ⟨100, Side.buy, 99/20, 0, 0⟩),
            (101, ⟨101, Side.blocked, 495/101, 495/101, 1⟩),
            (102, ⟨102, Side.sell, 165/34, 165/34, 0⟩)]
  last_price := some (205/2)
  last_traded_price := some 101
  coin_inventory := [⟨1505/20301, 201/2, 0⟩]
  base_amount_usdt := 495

/-- `bot2` after processing `c2candle`: the sell at 101 executes; the sell at
102 is rejected for lack of inventory, but the FIFO loop has already drained
the remaining 1505/20301 coin from the lot queue, while `coin` still holds
that amount — the ledger invariant is broken. -/
def bot2F : BotState where
  grid_lines := [100, 101, 102]
  fee_rate := 0
  usdt := 995
  coin := 1505/20301
  initial_coin := 1000/201
  trade_log := [⟨1, Side.sell, 205/2, 101, 495/101, 0, 495/202⟩]
  grids := [(100, ⟨100, Side.buy, 99/20, 0, 0⟩),
            (101, ⟨101, Side.blocked, 495/101, 495/101, 1⟩),
            (102, ⟨102, Side.blocked, 165/34, 165/34, 0⟩)]
  last_price := some (205/2)
  last_traded_price := some 101
  coin_inventory := []
  base_amount_usdt := 495

/-- The per-candle scan invariant (relative to the pre-candle state `st0`):
grid count is stable,, the log grows exactly by the number of trade-count
increments, and each level's count has risen at most once — and only
together with its side being `blocked`. -/
def scanInv (st0 st : BotState) : Prop :=
  st.grids.length = st0.grids.length ∧
  st.trade_log.length + totalTC st0 = st0.trade_log.length + totalTC st ∧
  ∀ j, tcAt st j = tcAt st0 j ∨
    (tcAt st j = tcAt st0 j + 1 ∧ sideAt st j = some Side.blocked)

/-- Everything `_update_grid_sides` leaves untouched in one dict entry:
key, price, trade amount, reservation and trade count (only `side` mutates). -/
def gsData (e : ℚ × GridState) : ℚ × ℚ × ℚ × ℚ × ℕ :=
  (e.1, e.2.price, e.2.trade_amount, e.2.coin_reserved, e.2.trade_count)

end GridDash

namespace GridDash

lemma fifoProfit_nonpos (p r : ℚ) (inv : List Lot) (h : r ≤ 0) :
    fifoProfit p r inv = 0 := by
  cases inv with
  | nil => rfl
  | cons lot rest => simp [fifoProfit, h]

lemma fifoRemove_nonpos (r : ℚ) (inv : List Lot) (h : r ≤ 0) :
    fifoRemove r inv = inv := by
  cases inv with
  | nil => rfl
  | cons lot rest => simp [fifoRemove, h]

lemma fifoLoop_nonpos (p r : ℚ) (inv : List Lot) (acc : ℚ) (h : r ≤ 0) :
    fifoLoop p r inv acc = (r, acc, inv) := by
  cases inv with
  | nil => simp [fifoLoop, h]
  | cons lot rest => simp [fifoLoop, h]

lemma fifoLoop_cons (p r acc : ℚ) (lot : Lot) (rest : List Lot) (h : ¬ r ≤ 0) :
    fifoLoop p r (lot :: rest) acc =
      if lot.amount ≤ r then
        fifoLoop p (r - lot.amount) rest (acc + (p - lot.price) * lot.amount)
      else (0, acc + (p - lot.price) * r, ⟨lot.amount - r, lot.price, lot.ts⟩ :: rest) := by
  rcases le_or_lt lot.amount r with hle | hlt
  · have hmin : min lot.amount r = lot.amount := min_eq_left hle
    simp [fifoLoop, h, hmin, hle]
  · have hmin : min lot.amount r = r := min_eq_right hlt.le
    have hne : lot.amount ≠ r := ne_of_gt hlt
    simp [fifoLoop, h, hmin, hne, not_le.mpr hlt, sub_self]

lemma fifoProfit_cons (p r : ℚ) (lot : Lot) (rest : List Lot) (h : ¬ r ≤ 0) :
    fifoProfit p r (lot :: rest) =
      if lot.amount ≤ r then
        (p - lot.price) * lot.amount + fifoProfit p (r - lot.amount) rest
      else (p - lot.price) * r := by
  rcases le_or_lt lot.amount r with hle | hlt
  · have hmin : min lot.amount r = lot.amount := min_eq_left hle
    simp [fifoProfit, h, hmin, hle]
  · have hmin : min lot.amount r = r := min_eq_right hlt.le
    rw [fifoProfit]
    simp only [if_neg h, hmin]
    rw [fifoProfit_nonpos p _ rest (by simp)]
    simp [not_le.mpr hlt]

lemma fifoRemove_cons (r : ℚ) (lot : Lot) (rest : List Lot) (h : ¬ r ≤ 0) :
    fifoRemove r (lot :: rest) =
      if lot.amount ≤ r then fifoRemove (r - lot.amount) rest
      else ⟨lot.amount - r, lot.price, lot.ts⟩ :: rest := by
  rcases le_or_lt lot.amount r with hle | hlt
  · have hmin : min lot.amount r = lot.amount := min_eq_left hle
    simp [fifoRemove, h, hmin, hle]
  · have hmin : min lot.amount r = r := min_eq_right hlt.le
    have hne : lot.amount ≠ r := ne_of_gt hlt
    simp [fifoRemove, h, hmin, hne, not_le.mpr hlt]

lemma sumAmounts_nil : sumAmounts [] = 0 := rfl

lemma sumAmounts_cons (lot : Lot) (rest : List Lot) :
    sumAmounts (lot :: rest) = lot.amount + sumAmounts rest := by
  simp [sumAmounts]

/-- The FIFO while-loop always satisfies: resulting inventory total =
starting total - (requested - remaining). -/
lemma fifoLoop_sum (p : ℚ) (inv : List Lot) : ∀ r acc : ℚ,
    sumAmounts (fifoLoop p r inv acc).2.2 =
      sumAmounts inv - r + (fifoLoop p r inv acc).1 := by
  induction inv with
  | nil =>
    intro r acc
    simp [fifoLoop]
  | cons lot rest ih =>
    intro r acc
    by_cases h : r ≤ 0
    · rw [fifoLoop_nonpos p r _ acc h]
      ring
    · rw [fifoLoop_cons p r acc lot rest h]
      split_ifs with hle
      · rw [ih]
        rw [sumAmounts_cons]
        ring
      · rw [sumAmounts_cons, sumAmounts_cons]
        simp only []
        ring

/-- With sufficient inventory the while-loop consumes exactly the request:
remaining 0, profit as the spec's FIFO sum, inventory as the spec's FIFO
removal. -/
lemma fifoLoop_suff (p : ℚ) (inv : List Lot) : ∀ r acc : ℚ, 0 < r →
    r ≤ sumAmounts inv →
    fifoLoop p r inv acc = (0, acc + fifoProfit p r inv, fifoRemove r inv) := by
  induction inv with
  | nil =>
    intro r acc hr hsum
    rw [sumAmounts_nil] at hsum
    exact absurd (hr.trans_le hsum) (lt_irrefl 0)
  | cons lot rest ih =>
    intro r acc hr hsum
    have h : ¬ r ≤ 0 := not_le.mpr hr
    rw [fifoLoop_cons p r acc lot rest h, fifoProfit_cons p r lot rest h,
        fifoRemove_cons r lot rest h]
    split_ifs with hle
    · have hstep : fifoLoop p (r - lot.amount) rest (acc + (p - lot.price) * lot.amount) =
          (0, (acc + (p - lot.price) * lot.amount) + fifoProfit p (r - lot.amount) rest,
            fifoRemove (r - lot.amount) rest) := by
        rcases eq_or_lt_of_le hle with heq | hlt2
        · rw [fifoLoop_nonpos p _ rest _ (by rw [heq]; simp),
              fifoProfit_nonpos p _ rest (by rw [heq]; simp),
              fifoRemove_nonpos _ rest (by rw [heq]; simp)]
          rw [heq]
          simp
        · rw [sumAmounts_cons] at hsum
          exact ih (r - lot.amount) _ (by linarith) (by linarith)
      rw [hstep]
      rw [Prod.ext_iff, Prod.ext_iff]
      refine ⟨rfl, by ring, rfl⟩
    · rfl

/-- With a genuine shortfall (all lots positive, total < request) the
while-loop drains the whole inventory before the shortfall is noticed. -/
lemma fifoLoop_short (p : ℚ) (inv : List Lot) : ∀ r acc : ℚ,
    (∀ lot ∈ inv, 0 < lot.amount) → sumAmounts inv < r →
    fifoLoop p r inv acc = (r - sumAmounts inv, acc + fifoProfit p r inv, []) := by
  induction inv with
  | nil =>
    intro r acc _ hsum
    rw [sumAmounts_nil] at hsum
    rw [sumAmounts_nil]
    simp [fifoLoop, fifoProfit]
  | cons lot rest ih =>
    intro r acc hpos hsum
    have hlot : 0 < lot.amount := hpos lot (by simp)
    have hrest : ∀ l ∈ rest, 0 < l.amount := fun l hl => hpos l (List.mem_cons_of_mem lot hl)
    rw [sumAmounts_cons] at hsum
    have hsumrest : 0 ≤ sumAmounts rest := by
      apply List.sum_nonneg
      intro x hx
      obtain ⟨l, hl, rfl⟩ := List.mem_map.mp hx
      exact (hrest l hl).le
    have hlt : lot.amount < r := by linarith
    have hr : 0 < r := hlot.trans hlt
    have h : ¬ r ≤ 0 := not_le.mpr hr
    rw [fifoLoop_cons p r acc lot rest h, fifoProfit_cons p r lot rest h]
    rw [if_pos hlt.le, if_pos hlt.le]
    rw [ih (r - lot.amount) _ hrest (by linarith)]
    rw [sumAmounts_cons]
    rw [Prod.ext_iff, Prod.ext_iff]
    refine ⟨by ring, by ring, rfl⟩

/-- C1 (corrected, counterexample): a concrete SELL attempt with cumulative
inventory 1 < trade_amount 2.  The attempt is rejected, yet the lot queue is
NOT left unchanged: the single lot is consumed (the queue is drained) before
the shortfall is detected, refuting the all-or-nothing claim. -/
theorem C1_counterexample :
    sumAmounts sellShortState.coin_inventory < 2 ∧
    sellShortState.grids.get? 0 = some (105, ⟨105, Side.sell, 2, 2, 0⟩) ∧
    (execute_trade sellShortState 0 cA).trade_log = sellShortState.trade_log ∧
    (execute_trade sellShortState 0 cA).coin_inventory ≠ sellShortState.coin_inventory := by
  have heval : execute_trade sellShortState 0 cA =
      { sellShortState with coin_inventory := [] } := by
    norm_num [execute_trade, sellShortState, cA, fifoLoop, Side]
  refine ⟨by norm_num [sellShortState, sumAmounts], by norm_num [sellShortState], ?_, ?_⟩
  · rw [heval]
  · rw [heval]
    simp [sellShortState]

/-- C1 (corrected): on a SELL attempt whose requested `trade_amount` exceeds
the cumulative inventory, no balance, log, grid or last-traded field changes
and the caller sees no trade — but the lot queue is fully drained (every lot
consumed before the shortfall is detected), not left untouched. -/
theorem C1_theorem (st : BotState) (i : ℕ) (k : ℚ) (g : GridState) (c : Candle)
    (hg : st.grids.get? i = some (k, g)) (hside : g.side = Side.sell)
    (hpos : ∀ lot ∈ st.coin_inventory, 0 < lot.amount)
    (hshort : sumAmounts st.coin_inventory < g.trade_amount) :
    execute_trade st i c = { st with coin_inventory := [] } := by
  simp only [execute_trade, hg, hside]
  rw [fifoLoop_short g.price st.coin_inventory g.trade_amount 0 hpos hshort]
  have hrem : 0 < g.trade_amount - sumAmounts st.coin_inventory := sub_pos.mpr hshort
  simp [hrem]

/-- C1 witness: the amended statement at the concrete shortfall state. -/
theorem C1_witness :
    execute_trade sellShortState 0 cA = { sellShortState with coin_inventory := [] } :=
  C1_theorem sellShortState 0 105 ⟨105, Side.sell, 2, 2, 0⟩ cA
    (by norm_num [sellShortState]) rfl
    (by intro lot hl
        simp only [sellShortState] at hl
        simp only [List.mem_singleton] at hl
        subst hl
        norm_num)
    (by norm_num [sellShortState, sumAmounts])

/-- C3 (confirmed): a SELL executed with sufficient inventory charges
`fee = trade_amount * price * fee_rate`, credits USDT by exactly
`trade_amount * price - fee`, debits coin by exactly `trade_amount`, and logs
`realized_profit = (Σ over consumed lot slices of
(grid_price - lot_price) * slice_amount) - fee`; the inventory becomes the
FIFO removal and the level is recorded as last traded with its count bumped. -/
theorem C3_theorem (st : BotState) (i : ℕ) (k : ℚ) (g : GridState) (c : Candle)
    (hg : st.grids.get? i = some (k, g)) (hside : g.side = Side.sell)
    (hamt : 0 < g.trade_amount) (hsuff : g.trade_amount ≤ sumAmounts st.coin_inventory) :
    execute_trade st i c = { st with
      coin_inventory := fifoRemove g.trade_amount st.coin_inventory
      coin := st.coin - g.trade_amount
      usdt := st.usdt + (g.trade_amount * g.price - g.trade_amount * g.price * st.fee_rate)
      trade_log := st.trade_log ++ [⟨c.ts, Side.sell, c.close, g.price, g.trade_amount,
        g.trade_amount * g.price * st.fee_rate,
        fifoProfit g.price g.trade_amount st.coin_inventory -
          g.trade_amount * g.price * st.fee_rate⟩]
      last_traded_price := some g.price
      grids := st.grids.set i (k, { g with trade_count := g.trade_count + 1 }) } := by
  simp only [execute_trade, hg, hside]
  rw [fifoLoop_suff g.price st.coin_inventory g.trade_amount 0 hamt hsuff]
  simp

/-- C3 witness: the SELL contract at a concrete two-lot state (the second lot
is split). -/
theorem C3_witness :
    execute_trade sellOkState 0 cA = { sellOkState with
      coin_inventory := fifoRemove (3/2) sellOkState.coin_inventory
      coin := sellOkState.coin - 3/2
      usdt := sellOkState.usdt + (3/2 * 101 - 3/2 * 101 * sellOkState.fee_rate)
      trade_log := sellOkState.trade_log ++ [⟨cA.ts, Side.sell, cA.close, 101, 3/2,
        3/2 * 101 * sellOkState.fee_rate,
        fifoProfit 101 (3/2) sellOkState.coin_inventory - 3/2 * 101 * sellOkState.fee_rate⟩]
      last_traded_price := some 101
      grids := sellOkState.grids.set 0 (101, ⟨101, Side.sell, 3/2, 3/2, 1⟩) } :=
  C3_theorem sellOkState 0 101 ⟨101, Side.sell, 3/2, 3/2, 0⟩ cA
    (by norm_num [sellOkState]) rfl (by norm_num)
    (by norm_num [sellOkState, sumAmounts])

/-- C4 (confirmed): a BUY needs `required_usdt = trade_amount * price *
(1 + fee_rate)`; with insufficient USDT it is a strict no-op (the whole state
is unchanged); otherwise USDT is debited by exactly `required_usdt`, coin is
credited by exactly `trade_amount`, one lot `(trade_amount, price, timestamp)`
is appended, and the entry is logged with `realized_profit = 0`. -/
theorem C4_theorem (st : BotState) (i : ℕ) (k : ℚ) (g : GridState) (c : Candle)
    (hg : st.grids.get? i = some (k, g)) (hside : g.side = Side.buy) :
    (st.usdt < g.trade_amount * g.price * (1 + st.fee_rate) →
      execute_trade st i c = st) ∧
    (g.trade_amount * g.price * (1 + st.fee_rate) ≤ st.usdt →
      execute_trade st i c = { st with
        usdt := st.usdt - g.trade_amount * g.price * (1 + st.fee_rate)
        coin := st.coin + g.trade_amount
        coin_inventory := st.coin_inventory ++ [Lot.mk g.trade_amount g.price c.ts]
        trade_log := st.trade_log ++ [⟨c.ts, Side.buy, c.close, g.price, g.trade_amount,
          g.trade_amount * g.price * st.fee_rate, 0⟩]
        last_traded_price := some g.price
        grids := st.grids.set i (k, { g with trade_count := g.trade_count + 1 }) }) := by
  constructor
  · intro hpoor
    simp only [execute_trade, hg, hside]
    simp [hpoor]
  · intro hrich
    simp only [execute_trade, hg, hside]
    simp [not_lt.mpr hrich]

/-- C4 witness: the no-op at 1 USDT on hand and the executed BUY at 500 USDT,
both against a level demanding 2 coin at 99. -/
theorem C4_witness :
    execute_trade buyPoorState 0 cA = buyPoorState ∧
    execute_trade buyOkState 0 cA = { buyOkState with
      usdt := buyOkState.usdt - 2 * 99 * (1 + buyOkState.fee_rate)
      coin := buyOkState.coin + 2
      coin_inventory := buyOkState.coin_inventory ++ [Lot.mk 2 99 cA.ts]
      trade_log := buyOkState.trade_log ++ [⟨cA.ts, Side.buy, cA.close, 99, 2,
        2 * 99 * buyOkState.fee_rate, 0⟩]
      last_traded_price := some 99
      grids := buyOkState.grids.set 0 (99, ⟨99, Side.buy, 2, 0, 1⟩) } := by
  constructor
  · exact (C4_theorem buyPoorState 0 99 ⟨99, Side.buy, 2, 0, 0⟩ cA
      (by norm_num [buyPoorState]) rfl).1 (by norm_num [buyPoorState])
  · exact (C4_theorem buyOkState 0 99 ⟨99, Side.buy, 2, 0, 0⟩ cA
      (by norm_num [buyOkState]) rfl).2 (by norm_num [buyOkState])

/-- C7 (confirmed): every out-of-domain parameter set (inverted bounds,
fewer than 2 grids, fee rate outside [0, 0.1)) makes `_validate_inputs` raise,
the constructor propagate, and `simulate_grid_bot` return the error fallback
before any candle is processed: its trade log is empty and its `error` field
carries the message. -/
theorem C7_theorem (total lower upper : ℚ) (num : ℕ) (fee : ℚ)
    (hbad : upper ≤ lower ∨ num < 2 ∨ fee < 0 ∨ 1/10 ≤ fee) :
    (∃ msg, validate_inputs total lower upper num fee = .error msg) ∧
    (∀ (mode : String) (ip : Option ℚ) (now ratio : ℚ),
      ∃ msg, mkGridBot total lower upper num mode fee ip now ratio = .error msg) ∧
    (∀ (df : List Candle) (mode : String) (now vt ratio : ℚ),
      ∃ msg, simulate_grid_bot df total lower upper num mode fee now vt ratio
        = errorResult total vt msg ∧
        (simulate_grid_bot df total lower upper num mode fee now vt ratio).trade_log = [] ∧
        (simulate_grid_bot df total lower upper num mode fee now vt ratio).error = some msg) := by
  have hval : ∃ msg, validate_inputs total lower upper num fee = .error msg := by
    unfold validate_inputs
    by_cases h1 : lower ≥ upper
    · exact ⟨_, by rw [if_pos h1]⟩
    · rw [if_neg h1]
      by_cases h2 : num < 2
      · exact ⟨_, by rw [if_pos h2]⟩
      · rw [if_neg h2]
        have h3 : ¬(0 ≤ fee ∧ fee < 1/10) := by
          rintro ⟨hf0, hf1⟩
          rcases hbad with hb | hb | hb | hb
          · exact h1 hb
          · exact h2 hb
          · linarith
          · linarith
        rw [if_pos h3]
        exact ⟨_, rfl⟩
  obtain ⟨msg, hmsg⟩ := hval
  have hmk : ∀ (mode : String) (ip : Option ℚ) (now ratio : ℚ),
      mkGridBot total lower upper num mode fee ip now ratio = .error msg := by
    intro mode ip now ratio
    simp only [mkGridBot, hmsg]
  refine ⟨⟨msg, hmsg⟩, fun mode ip now ratio => ⟨msg, hmk mode ip now ratio⟩, ?_⟩
  intro df mode now vt ratio
  cases df with
  | nil => exact ⟨"IndexError", rfl, rfl, rfl⟩
  | cons c0 rest =>
    refine ⟨msg, ?_, ?_, ?_⟩ <;>
      simp only [simulate_grid_bot, hmk] <;> rfl

/-- C7 witness: inverted bounds at concrete values. -/
theorem C7_witness :
    (∃ msg, validate_inputs 1000 2 1 5 (1/100) = .error msg) ∧
    (∃ msg, simulate_grid_bot [⟨0, 1, 1⟩] 1000 2 1 5 "arithmetic" (1/100) 0 0 0
      = errorResult 1000 0 msg) := by
  obtain ⟨h1, _, h3⟩ := C7_theorem 1000 2 1 5 (1/100) (Or.inl (by norm_num))
  obtain ⟨m, hm, _, _⟩ := h3 [⟨0, 1, 1⟩] "arithmetic" 0 0 0
  exact ⟨h1, m, hm⟩

/-- C8 (code bug): with a grid line exactly at the first candle's close
(lines [100, 150, 200], initial price 150), the level is indeed given no grid
state, but initialization then crashes: the debug print in
`_initialize_grids` indexes `self.grids[price]` for the excluded level,
raising `KeyError`, so `simulate_grid_bot` returns the error fallback instead
of a normal result — no candle is ever processed. -/
theorem C8_theorem :
    mkGridBot 1000 100 200 2 "arithmetic" (1/1000) (some 150) 0 0 = .error "KeyError" ∧
    simulate_grid_bot [⟨0, 150, 150⟩, ⟨1, 150, 150⟩] 1000 100 200 2 "arithmetic" (1/1000) 0 0 0
      = errorResult 1000 0 "KeyError" ∧
    (simulate_grid_bot [⟨0, 150, 150⟩, ⟨1, 150, 150⟩] 1000 100 200 2 "arithmetic"
      (1/1000) 0 0 0).trade_log = [] ∧
    (simulate_grid_bot [⟨0, 150, 150⟩, ⟨1, 150, 150⟩] 1000 100 200 2 "arithmetic"
      (1/1000) 0 0 0).error = some "KeyError" := by
  have hne : ¬ ("arithmetic" : String) = "geometric" := by decide
  have hlines : calculate_grid_lines 100 200 2 "arithmetic" 0 = [100, 150, 200] := by
    norm_num [calculate_grid_lines, pySorted, List.range_succ, List.insertionSort,
      List.orderedInsert, hne]
  have hmk : mkGridBot 1000 100 200 2 "arithmetic" (1/1000) (some 150) 0 0
      = .error "KeyError" := by
    simp only [mkGridBot, validate_inputs]
    norm_num [hlines, init_grids, init_grids_loop, dictInsert, dictGet]
  refine ⟨hmk, ?_, ?_, ?_⟩ <;> simp only [simulate_grid_bot, hmk] <;> rfl

lemma foldl_const_fix {α β : Type} (f : α → α) (st : α) (h : f st = st) (l : List β) :
    l.foldl (fun s _ => f s) st = st := by
  induction l with
  | nil => rfl
  | cons a l ih => simpa [h] using ih

lemma modeStr_ne : ¬ ("arithmetic" : String) = "geometric" := by decide

lemma pyRound4_whole (x : ℚ) (n : ℤ) (h : x * 10000 = (n : ℚ)) : pyRound4 x = x := by
  unfold pyRound4 roundHalfEven
  rw [h, Int.fract_intCast, Int.floor_intCast]
  norm_num
  rw [← h]
  field_simp

lemma mk_flat : mkGridBot 1000 100 120 2 "arithmetic" (1/1000) (some 105) 0 0 = .ok botFlat := by
  have h100 : pyRound4 100 = 100 := pyRound4_whole 100 1000000 (by norm_num)
  have h110 : pyRound4 110 = 110 := pyRound4_whole 110 1100000 (by norm_num)
  have h120 : pyRound4 120 = 120 := pyRound4_whole 120 1200000 (by norm_num)
  norm_num [mkGridBot, validate_inputs, calculate_grid_lines, pySorted, List.range_succ,
    List.insertionSort, List.orderedInsert, modeStr_ne, init_grids, init_grids_loop,
    dictInsert, dictGet, h100, h110, h120, botFlat]

lemma update_flat : update_grid_sides botFlat 105 (some 105) = .ok botFlat := by
  norm_num [update_grid_sides, update_sides_loop, setSide, dictGet, dictSet,
    npIsClose, abs_div, botFlat]

lemma pass_flat : scan_pass 105 105 cFlat botFlat = botFlat := by
  norm_num [scan_pass, scan_grid, List.range_succ, botFlat, cFlat]

lemma candle_flat : process_candle botFlat cFlat = .ok botFlat := by
  have hlp : botFlat.last_price = some 105 := rfl
  have hltp : botFlat.last_traded_price = none := rfl
  have hop : cFlat.open_ = 105 := rfl
  have hcl : cFlat.close = 105 := rfl
  simp only [process_candle, hlp, hltp, hop, hcl, Option.getD_some, Option.getD_none]
  rw [update_flat]
  show Except.ok (scan_points 105 105 cFlat botFlat) = Except.ok botFlat
  simp only [scan_points]
  rw [show (20 : ℕ) = 19 + 1 from rfl, List.range_succ_eq_map]
  simp only [List.foldl_cons, pass_flat, List.foldl_map]
  rw [foldl_const_fix (scan_pass 105 105 cFlat) botFlat pass_flat]

lemma sim_flat : simulate_grid_bot [c0Flat, cFlat] 1000 100 120 2 "arithmetic" (1/1000) 0 0 0
    = { initial_investment := 1000
        final_value := 500 + 100000/21021 * 105
        profit_usdt := 500 + 100000/21021 * 105 - 1000
        profit_pct := (500 + 100000/21021 * 105 - 1000) / 1000 * 100
        fees_paid := 0
        num_trades := 0
        trade_log := []
        grid_lines := [100, 110, 120]
        final_usdt := 500
        final_coin := 100000/21021
        initial_coin := 100000/21021
        reserved_coin := 0
        initial_price := 105
        final_price := 105
        price_change_pct := (105 - 105) / 105 * 100
        bot_version := 0
        error := none } := by
  have hc0 : c0Flat.close = 105 := rfl
  simp only [simulate_grid_bot, hc0, mk_flat, run_candles, candle_flat]
  norm_num [botFlat, c0Flat, cFlat]

lemma mk2 : mkGridBot 1000 100 102 2 "arithmetic" 0 (some (201/2)) 0 0 = .ok bot2 := by
  have h100 : pyRound4 100 = 100 := pyRound4_whole 100 1000000 (by norm_num)
  have h101 : pyRound4 101 = 101 := pyRound4_whole 101 1010000 (by norm_num)
  have h102 : pyRound4 102 = 102 := pyRound4_whole 102 1020000 (by norm_num)
  norm_num [mkGridBot, validate_inputs, calculate_grid_lines, pySorted, List.range_succ,
    List.insertionSort, List.orderedInsert, modeStr_ne, init_grids, init_grids_loop,
    dictInsert, dictGet, h100, h101, h102, bot2]

lemma update2 : update_grid_sides bot2 (201/2) (some (201/2)) = .ok bot2 := by
  norm_num [update_grid_sides, update_sides_loop, setSide, dictGet, dictSet,
    npIsClose, abs_div, bot2]

lemma step2_0 : scan_grid (201/2) (205/2) c2candle bot2 0 = bot2 := by
  norm_num [scan_grid, bot2]

lemma exec2_1 : execute_trade bot2 1 c2candle =
    { bot2 with
      coin_inventory := [⟨1505/20301, 201/2, 0⟩]
      coin := 1505/20301
      usdt := 995
      trade_log := [⟨1, Side.sell, 205/2, 101, 495/101, 0, 495/202⟩]
      last_traded_price := some 101
      grids := [(100, ⟨100, Side.buy, 99/20, 0, 0⟩),
                (101, ⟨101, Side.sell, 495/101, 495/101, 1⟩),
                (102, ⟨102, Side.sell, 165/34, 165/34, 0⟩)] } := by
  norm_num [execute_trade, fifoLoop, bot2, c2candle]

lemma step2_1 : scan_grid (201/2) (205/2) c2candle bot2 1 = bot2M := by
  have hg : bot2.grids.get? 1 = some (101, ⟨101, Side.sell, 495/101, 495/101, 0⟩) := rfl
  have hltp : bot2.last_traded_price = none := rfl
  have hne : ¬ (none : Option ℚ) = some 101 := by decide
  simp only [scan_grid, hg]
  norm_num [hltp, hne]
  rw [exec2_1]
  norm_num [bot2, bot2M]

lemma exec2_2 : execute_trade bot2M 2 c2candle = { bot2M with coin_inventory := [] } := by
  norm_num [execute_trade, fifoLoop, bot2M, c2candle]

lemma step2_2 : scan_grid (201/2) (205/2) c2candle bot2M 2 = bot2F := by
  have hg : bot2M.grids.get? 2 = some (102, ⟨102, Side.sell, 165/34, 165/34, 0⟩) := rfl
  have hltp : bot2M.last_traded_price = some 101 := rfl
  have hne : ¬ (some (101:ℚ)) = some 102 := by norm_num
  simp only [scan_grid, hg]
  norm_num [hltp, hne]
  rw [exec2_2]
  norm_num [bot2M, bot2F]

lemma pass2 : scan_pass (201/2) (205/2) c2candle bot2 = bot2F := by
  have hlen : bot2.grids.length = 3 := rfl
  have hr : List.range 3 = [0, 1, 2] := by decide
  rw [scan_pass, hlen, hr]
  rw [List.foldl_cons, step2_0, List.foldl_cons, step2_1, List.foldl_cons, step2_2,
    List.foldl_nil]

lemma pass2F : scan_pass (201/2) (205/2) c2candle bot2F = bot2F := by
  have hbs : ¬ Side.blocked = Side.sell := by decide
  have hbb : ¬ Side.blocked = Side.buy := by decide
  norm_num [scan_pass, scan_grid, List.range_succ, bot2F, c2candle, hbs, hbb]

lemma candle2 : process_candle bot2 c2candle = .ok bot2F := by
  have hlp : bot2.last_price = some (201/2) := rfl
  have hltp : bot2.last_traded_price = none := rfl
  have hop : c2candle.open_ = 201/2 := rfl
  have hcl : c2candle.close = 205/2 := rfl
  simp only [process_candle, hlp, hltp, hop, hcl, Option.getD_some, Option.getD_none]
  rw [update2]
  show Except.ok (scan_points (201/2) (205/2) c2candle bot2) = Except.ok bot2F
  simp only [scan_points]
  rw [show (20 : ℕ) = 19 + 1 from rfl, List.range_succ_eq_map]
  simp only [List.foldl_cons, pass2, List.foldl_map]
  rw [foldl_const_fix (scan_pass (201/2) (205/2) c2candle) bot2F pass2F]

lemma fifoLoop_nonneg (p : ℚ) (inv : List Lot) : ∀ r acc : ℚ, 0 ≤ r →
    0 ≤ (fifoLoop p r inv acc).1 := by
  induction inv with
  | nil =>
    intro r acc hr
    simp [fifoLoop, hr]
  | cons lot rest ih =>
    intro r acc hr
    by_cases h : r ≤ 0
    · rw [fifoLoop_nonpos p r _ acc h]; exact hr
    · rw [fifoLoop_cons p r acc lot rest h]
      split_ifs with hle
      · exact ih (r - lot.amount) _ (by linarith)
      · simp

/-- C2 (corrected, counterexample): a reachable two-candle run in which the
ledger invariant breaks.  `GridBot(1000, 100, 102, 2, 'arithmetic', 0, 100.5)`
processes one rising candle: the sell at 101 executes, the sell at 102 is
rejected for lack of coin — and after that rejected trade the lot queue is
empty while `coin_balance = 1505/20301 ≈ 0.074`, a discrepancy far above
1e-8. -/
theorem C2_counterexample :
    mkGridBot 1000 100 102 2 "arithmetic" 0 (some (201/2)) 0 0 = .ok bot2 ∧
    process_candle bot2 c2candle = .ok bot2F ∧
    1/100000000 < |sumAmounts bot2F.coin_inventory - bot2F.coin| := by
  refine ⟨mk2, candle2, ?_⟩
  norm_num [bot2F, sumAmounts, abs_div]

/-- C2 (corrected): the invariant `Σ lot.amount = coin_balance` holds exactly
after initialization, is preserved exactly by every executed (logged) trade
and by every rejected BUY — but a rejected SELL falls outside this (it
consumes lots without debiting `coin`, as the counterexample shows). -/
theorem C2_theorem :
    (∀ (total lower upper : ℚ) (num : ℕ) (mode : String) (fee ip now ratio : ℚ)
        (bot : BotState),
      mkGridBot total lower upper num mode fee (some ip) now ratio = .ok bot →
      sumAmounts bot.coin_inventory = bot.coin) ∧
    (∀ (st : BotState) (i : ℕ) (c : Candle) (k : ℚ) (g : GridState),
      st.grids.get? i = some (k, g) → 0 ≤ g.trade_amount →
      (execute_trade st i c).trade_log ≠ st.trade_log →
      sumAmounts (execute_trade st i c).coin_inventory - (execute_trade st i c).coin
        = sumAmounts st.coin_inventory - st.coin) ∧
    (∀ (st : BotState) (i : ℕ) (c : Candle) (k : ℚ) (g : GridState),
      st.grids.get? i = some (k, g) → g.side ≠ Side.sell →
      st.usdt < g.trade_amount * g.price * (1 + st.fee_rate) →
      execute_trade st i c = st) := by
  refine ⟨?_, ?_, ?_⟩
  · intro total lower upper num mode fee ip now ratio bot h
    rw [mkGridBot] at h
    cases hval : validate_inputs total lower upper num fee with
    | error e => rw [hval] at h; cases h
    | ok u =>
      rw [hval] at h
      rw [init_grids] at h
      cases hloop : init_grids_loop ip
          (total * (99/100) / num) fee
          (calculate_grid_lines lower upper num mode ratio) [] with
      | error e => simp only [hloop] at h; cases h
      | ok d =>
        simp only [hloop] at h
        cases h
        simp [sumAmounts]
  · intro st i c k g hg h0 hlog
    simp only [execute_trade, hg] at hlog ⊢
    by_cases hs : g.side = Side.sell
    · simp only [hs, if_pos rfl] at hlog ⊢
      by_cases hr : 0 < (fifoLoop g.price g.trade_amount st.coin_inventory 0).1
      · rw [if_pos hr] at hlog
        exact absurd rfl hlog
      · rw [if_neg hr] at hlog ⊢
        have hz : (fifoLoop g.price g.trade_amount st.coin_inventory 0).1 = 0 :=
          le_antisymm (not_lt.mp hr) (fifoLoop_nonneg g.price st.coin_inventory g.trade_amount 0 h0)
        have hsum := fifoLoop_sum g.price st.coin_inventory g.trade_amount 0
        rw [hz] at hsum
        show sumAmounts (fifoLoop g.price g.trade_amount st.coin_inventory 0).2.2
            - (st.coin - g.trade_amount) = sumAmounts st.coin_inventory - st.coin
        rw [hsum]
        ring
    · rw [if_neg hs] at hlog ⊢
      by_cases hp : st.usdt < g.trade_amount * g.price * (1 + st.fee_rate)
      · rw [if_pos hp] at hlog
        exact absurd rfl hlog
      · rw [if_neg hp] at hlog ⊢
        show sumAmounts (st.coin_inventory ++ [Lot.mk g.trade_amount g.price c.ts])
            - (st.coin + g.trade_amount) = sumAmounts st.coin_inventory - st.coin
        have happ : sumAmounts (st.coin_inventory ++ [Lot.mk g.trade_amount g.price c.ts])
            = sumAmounts st.coin_inventory + g.trade_amount := by
          simp [sumAmounts]
        rw [happ]
        ring
  · intro st i c k g hg hs hp
    simp only [execute_trade, hg]
    rw [if_neg hs, if_pos hp]

/-- C2 witness: the invariant parts at concrete inputs — equality after the
flat-run initialization, preservation across the executed BUY at
`buyOkState`, and the strict no-op of the rejected BUY at `buyPoorState`. -/
theorem C2_witness :
    sumAmounts botFlat.coin_inventory = botFlat.coin ∧
    sumAmounts (execute_trade buyOkState 0 cA).coin_inventory
        - (execute_trade buyOkState 0 cA).coin
      = sumAmounts buyOkState.coin_inventory - buyOkState.coin ∧
    execute_trade buyPoorState 0 cA = buyPoorState := by
  refine ⟨C2_theorem.1 1000 100 120 2 "arithmetic" (1/1000) 105 0 0 botFlat mk_flat,
    C2_theorem.2.1 buyOkState 0 cA 99 ⟨99, Side.buy, 2, 0, 0⟩ rfl (by norm_num) ?_,
    C2_theorem.2.2 buyPoorState 0 cA 99 ⟨99, Side.buy, 2, 0, 0⟩ rfl (by decide)
      (by norm_num [buyPoorState])⟩
  have heval : (execute_trade buyOkState 0 cA).trade_log
      = [⟨cA.ts, Side.buy, cA.close, 99, 2, 2 * 99 * (1/1000), 0⟩] := by
    have hb : ¬ Side.buy = Side.sell := by decide
    norm_num [execute_trade, buyOkState, cA, hb]
  rw [heval]
  simp [buyOkState]

/-- C10 (corrected, counterexample): a flat-price run with fee_rate 0.001
performs no grid trade, so `fees_paid = 0`, even though the seed purchase
paid a strictly positive fee (`initial_coin * 105 * 0.001 > 0`).  The seed
fee is therefore not part of `fees_paid`. -/
theorem C10_counterexample :
    (simulate_grid_bot [c0Flat, cFlat] 1000 100 120 2 "arithmetic" (1/1000) 0 0 0).error
      = none ∧
    (simulate_grid_bot [c0Flat, cFlat] 1000 100 120 2 "arithmetic" (1/1000) 0 0 0).fees_paid
      = 0 ∧
    0 < (simulate_grid_bot [c0Flat, cFlat] 1000 100 120 2 "arithmetic"
        (1/1000) 0 0 0).initial_coin * 105 * (1/1000) := by
  rw [sim_flat]
  norm_num

/-- C10 (corrected): `fees_paid` is exactly the sum of the fees of the logged
trades; the seed-purchase fee is charged against the USDT balance at
initialization (`usdt = total - (initial_coin*p0 + initial_coin*p0*fee)`)
but never logged, hence never counted in `fees_paid`. -/
theorem C10_theorem :
    (∀ (df : List Candle) (total lower upper : ℚ) (num : ℕ) (mode : String)
        (fee now vt ratio : ℚ),
      (simulate_grid_bot df total lower upper num mode fee now vt ratio).error = none →
      (simulate_grid_bot df total lower upper num mode fee now vt ratio).fees_paid
        = ((simulate_grid_bot df total lower upper num mode fee now vt ratio).trade_log.map
            (fun t => t.fee)).sum) ∧
    (∀ (total lower upper : ℚ) (num : ℕ) (mode : String) (fee ip now ratio : ℚ)
        (bot : BotState),
      mkGridBot total lower upper num mode fee (some ip) now ratio = .ok bot →
      bot.trade_log = [] ∧
      bot.usdt = total - (bot.initial_coin * ip + bot.initial_coin * ip * fee)) := by
  constructor
  · intro df total lower upper num mode fee now vt ratio herr
    cases df with
    | nil => simp [simulate_grid_bot, errorResult]
    | cons c0 rest =>
      rw [simulate_grid_bot]
      split
      · simp [errorResult]
      · split
        · simp [errorResult]
        · rfl
  · intro total lower upper num mode fee ip now ratio bot h
    rw [mkGridBot] at h
    cases hval : validate_inputs total lower upper num fee with
    | error e => rw [hval] at h; cases h
    | ok u =>
      rw [hval] at h
      rw [init_grids] at h
      cases hloop : init_grids_loop ip
          (total * (99/100) / num) fee
          (calculate_grid_lines lower upper num mode ratio) [] with
      | error e => simp only [hloop] at h; cases h
      | ok d =>
        simp only [hloop] at h
        cases h
        constructor
        · rfl
        · show total - (total / 2 / (ip * (1 + fee)) * ip + total / 2 / (ip * (1 + fee)) * ip * fee)
            = total - (total / 2 / (ip * (1 + fee)) * ip + total / 2 / (ip * (1 + fee)) * ip * fee)
          rfl

/-- C10 witness: the fees identity and the seed-fee accounting at the
flat-run input. -/
theorem C10_witness :
    (simulate_grid_bot [c0Flat, cFlat] 1000 100 120 2 "arithmetic" (1/1000) 0 0 0).fees_paid
      = ((simulate_grid_bot [c0Flat, cFlat] 1000 100 120 2 "arithmetic"
          (1/1000) 0 0 0).trade_log.map (fun t => t.fee)).sum ∧
    botFlat.trade_log = [] ∧
    botFlat.usdt = 1000 - (botFlat.initial_coin * 105 + botFlat.initial_coin * 105 * (1/1000)) := by
  refine ⟨C10_theorem.1 [c0Flat, cFlat] 1000 100 120 2 "arithmetic" (1/1000) 0 0 0 ?_,
    C10_theorem.2 1000 100 120 2 "arithmetic" (1/1000) 105 0 0 botFlat mk_flat⟩
  rw [sim_flat]

lemma modeStr_ne2 : ¬ ("geometric" : String) = "arithmetic" := by decide

lemma calc_arith (lower upper ratio : ℚ) (num : ℕ) :
    calculate_grid_lines lower upper num "arithmetic" ratio
      = pySorted ((List.range (num + 1)).map
          (fun i : ℕ => lower + (i : ℚ) * (upper - lower) / (num : ℚ))) := by
  simp [calculate_grid_lines, modeStr_ne]

lemma calc_geom (lower upper ratio : ℚ) (num : ℕ) :
    calculate_grid_lines lower upper num "geometric" ratio
      = pySorted ((List.range (num + 1)).map
          (fun i : ℕ => pyRound4 (lower * ratio ^ i))) := by
  simp [calculate_grid_lines, modeStr_ne2]

lemma getD_map_range (f : ℕ → ℚ) (n i : ℕ) (h : i < n) :
    ((List.range n).map f).getD i 0 = f i := by
  rw [List.getD_eq_getElem?_getD, List.getElem?_map, List.getElem?_range h]
  rfl

lemma roundHalfEven_ge_floor (x : ℚ) : ⌊x⌋ ≤ roundHalfEven x := by
  unfold roundHalfEven
  split_ifs <;> omega

lemma roundHalfEven_le_floor_add_one (x : ℚ) : roundHalfEven x ≤ ⌊x⌋ + 1 := by
  unfold roundHalfEven
  split_ifs <;> omega

lemma roundHalfEven_mono {x y : ℚ} (h : x ≤ y) : roundHalfEven x ≤ roundHalfEven y := by
  have hfl : ⌊x⌋ ≤ ⌊y⌋ := Int.floor_mono h
  rcases lt_or_eq_of_le hfl with hlt | heq
  · calc roundHalfEven x ≤ ⌊x⌋ + 1 := roundHalfEven_le_floor_add_one x
    _ ≤ ⌊y⌋ := by omega
    _ ≤ roundHalfEven y := roundHalfEven_ge_floor y
  · have hfr : Int.fract x ≤ Int.fract y := by
      unfold Int.fract
      rw [← heq]
      linarith
    unfold roundHalfEven
    rw [← heq]
    split_ifs <;> first | omega | linarith

lemma pyRound4_mono {x y : ℚ} (h : x ≤ y) : pyRound4 x ≤ pyRound4 y := by
  unfold pyRound4
  have h1 : roundHalfEven (x * 10000) ≤ roundHalfEven (y * 10000) :=
    roundHalfEven_mono (by linarith)
  have h2 : ((roundHalfEven (x * 10000) : ℚ)) ≤ (roundHalfEven (y * 10000) : ℚ) := by
    exact_mod_cast h1
  linarith

/-- C5 (corrected, counterexample): valid geometric inputs
(lower 1, ratio 1.00004, upper = ratio², num_grids 2) whose grid lines are
`[1, 1, 1.0001]` after the source's `round(·, 4)`: the duplicates destroy
strict ascent and the exact upper bound `ratio² = 1.0000800016` is not among
the levels. -/
theorem C5_counterexample :
    (0:ℚ) < 1 ∧ (1:ℚ) < (25001/25000 : ℚ) ^ 2 ∧ (0:ℚ) < 25001/25000 ∧
    (1:ℚ) * (25001/25000 : ℚ) ^ 2 = (25001/25000 : ℚ) ^ 2 ∧
    calculate_grid_lines 1 ((25001/25000 : ℚ) ^ 2) 2 "geometric" (25001/25000)
      = [1, 1, 10001/10000] ∧
    ¬ ((25001/25000 : ℚ) ^ 2 ∈
        calculate_grid_lines 1 ((25001/25000 : ℚ) ^ 2) 2 "geometric" (25001/25000)) ∧
    ¬ List.Chain' (· < ·)
        (calculate_grid_lines 1 ((25001/25000 : ℚ) ^ 2) 2 "geometric" (25001/25000)) := by
  have heval : calculate_grid_lines 1 ((25001/25000 : ℚ) ^ 2) 2 "geometric" (25001/25000)
      = [1, 1, 10001/10000] := by
    rw [calc_geom]
    norm_num [pySorted, List.range_succ, List.insertionSort, List.orderedInsert,
      pyRound4, roundHalfEven, Int.fract]
  refine ⟨by norm_num, by norm_num, by norm_num, by norm_num, heval, ?_, ?_⟩
  · rw [heval]
    norm_num
  · rw [heval]
    simp [List.chain'_cons]

/-- C5 (corrected): in arithmetic mode the generator returns exactly
num_grids+1 strictly ascending levels `lower + i*(upper-lower)/num` that
include lower and upper exactly, with constant first difference.  In
geometric mode level i is `round(lower * ratio^i, 4)` — rounded to 4 decimal
places — so the list has num_grids+1 entries and is only non-strictly
ascending, its endpoints are the ROUNDED bounds, and the ratio between
consecutive levels is only approximately constant (the counterexample shows
strict ascent and exact bounds genuinely fail). -/
theorem C5_theorem :
    (∀ (lower upper ratio : ℚ) (num : ℕ), 0 < lower → lower < upper → 2 ≤ num →
      (calculate_grid_lines lower upper num "arithmetic" ratio).length = num + 1 ∧
      List.Chain' (· < ·) (calculate_grid_lines lower upper num "arithmetic" ratio) ∧
      (∀ i : ℕ, i ≤ num →
        (calculate_grid_lines lower upper num "arithmetic" ratio).getD i 0
          = lower + i * (upper - lower) / num) ∧
      (calculate_grid_lines lower upper num "arithmetic" ratio).getD 0 0 = lower ∧
      (calculate_grid_lines lower upper num "arithmetic" ratio).getD num 0 = upper) ∧
    (∀ (lower ratio : ℚ) (num : ℕ), 0 < lower → 1 < ratio →
      (calculate_grid_lines lower (lower * ratio ^ num) num "geometric" ratio).length
        = num + 1 ∧
      List.Chain' (· ≤ ·)
        (calculate_grid_lines lower (lower * ratio ^ num) num "geometric" ratio) ∧
      (∀ i : ℕ, i ≤ num →
        (calculate_grid_lines lower (lower * ratio ^ num) num "geometric" ratio).getD i 0
          = pyRound4 (lower * ratio ^ i))) := by
  constructor
  · intro lower upper ratio num h0 hlu hnum
    have hnpos : (0 : ℚ) < (num : ℚ) := by
      have : 0 < num := by omega
      exact_mod_cast this
    have hstep : (0:ℚ) < (upper - lower) / num := div_pos (by linarith) hnpos
    have hmono : ∀ a b : ℕ, a < b →
        lower + (a : ℚ) * (upper - lower) / (num : ℚ)
          < lower + (b : ℚ) * (upper - lower) / (num : ℚ) := by
      intro a b hab
      have hc : (a : ℚ) < b := by exact_mod_cast hab
      have hm := mul_lt_mul_of_pos_right hc hstep
      rw [mul_div_assoc, mul_div_assoc]
      linarith
    have hpw : List.Pairwise (· < ·)
        ((List.range (num + 1)).map
          (fun i : ℕ => lower + (i : ℚ) * (upper - lower) / (num : ℚ))) :=
      List.Pairwise.map
        (fun i : ℕ => lower + (i : ℚ) * (upper - lower) / (num : ℚ))
        (fun a b hab => hmono a b hab) (List.pairwise_lt_range _)
    have hsorted : List.Sorted (· ≤ ·)
        ((List.range (num + 1)).map
          (fun i : ℕ => lower + (i : ℚ) * (upper - lower) / (num : ℚ))) :=
      hpw.imp le_of_lt
    have hps : calculate_grid_lines lower upper num "arithmetic" ratio
        = (List.range (num + 1)).map
          (fun i : ℕ => lower + (i : ℚ) * (upper - lower) / (num : ℚ)) := by
      rw [calc_arith, pySorted, hsorted.insertionSort_eq]
    refine ⟨?_, ?_, ?_, ?_, ?_⟩
    · rw [hps]; simp
    · rw [hps, List.chain'_iff_pairwise]; exact hpw
    · intro i hi
      rw [hps, getD_map_range _ _ _ (by omega)]
    · rw [hps, getD_map_range _ _ _ (by omega)]
      simp
    · rw [hps, getD_map_range _ _ _ (by omega)]
      have hn : (num : ℚ) ≠ 0 := ne_of_gt hnpos
      field_simp
  · intro lower ratio num h0 hr
    have hmono : ∀ a b : ℕ, a < b →
        pyRound4 (lower * ratio ^ a) ≤ pyRound4 (lower * ratio ^ b) := by
      intro a b hab
      apply pyRound4_mono
      have hpow : ratio ^ a ≤ ratio ^ b := pow_le_pow_right₀ (le_of_lt hr) (le_of_lt hab)
      nlinarith
    have hsorted : List.Sorted (· ≤ ·)
        ((List.range (num + 1)).map (fun i : ℕ => pyRound4 (lower * ratio ^ i))) :=
      List.Pairwise.map (fun i : ℕ => pyRound4 (lower * ratio ^ i))
        (fun a b hab => hmono a b hab) (List.pairwise_lt_range _)
    have hps : calculate_grid_lines lower (lower * ratio ^ num) num "geometric" ratio
        = (List.range (num + 1)).map (fun i : ℕ => pyRound4 (lower * ratio ^ i)) := by
      rw [calc_geom, pySorted, hsorted.insertionSort_eq]
    refine ⟨?_, ?_, ?_⟩
    · rw [hps]; simp
    · rw [hps, List.chain'_iff_pairwise]; exact hsorted
    · intro i hi
      rw [hps, getD_map_range _ _ _ (by omega)]

/-- C5 witness: both parts at concrete valid inputs (band [100, 120] with 2
arithmetic grids; geometric lower 1, ratio 2, num 2). -/
theorem C5_witness :
    (calculate_grid_lines 100 120 2 "arithmetic" 0).length = 2 + 1 ∧
    (calculate_grid_lines 100 120 2 "arithmetic" 0).getD 2 0 = 120 ∧
    (calculate_grid_lines 1 (1 * 2 ^ 2) 2 "geometric" 2).getD 1 0 = pyRound4 (1 * 2 ^ 1) := by
  obtain ⟨ha, hg⟩ := C5_theorem
  obtain ⟨hl, _, _, _, hup⟩ := ha 100 120 0 2 (by norm_num) (by norm_num) (by norm_num)
  obtain ⟨_, _, hget⟩ := hg 1 2 2 (by norm_num) (by norm_num)
  exact ⟨hl, hup, hget 1 (by norm_num)⟩

lemma get?_lt_len {α : Type} {l : List α} {i : ℕ} {a : α} (h : l.get? i = some a) :
    i < l.length := by
  by_contra hn
  rw [List.get?_eq_none.mpr (not_lt.mp hn)] at h
  cases h

lemma sum_tc_set (d : List (ℚ × GridState)) : ∀ (i : ℕ) (e e' : ℚ × GridState),
    d.get? i = some e →
    ((d.set i e').map (fun x => x.2.trade_count)).sum + e.2.trade_count
      = (d.map (fun x => x.2.trade_count)).sum + e'.2.trade_count := by
  induction d with
  | nil => intro i e e' h; cases h
  | cons a d ih =>
    intro i e e' h
    cases i with
    | zero =>
      cases h
      simp [List.set]
      omega
    | succ i =>
      simp only [List.get?_cons_succ] at h
      simp only [List.set, List.map_cons, List.sum_cons]
      have := ih i e e' h
      omega

lemma foldl_inv {α β : Type} (P : α → Prop) (f : α → β → α)
    (hstep : ∀ a b, P a → P (f a b)) : ∀ (l : List β) (a : α), P a → P (l.foldl f a) := by
  intro l
  induction l with
  | nil => intro a h; exact h
  | cons b l ih => intro a h; exact ih (f a b) (hstep a b h)

/-- `_execute_trade` either changes neither the log nor the grids nor the
last-traded price (a rejected trade), or appends exactly one log entry, bumps
exactly the executing level's trade count and records its price as last
traded. -/
lemma execute_trade_cases (st : BotState) (i : ℕ) (c : Candle) :
    ((execute_trade st i c).trade_log = st.trade_log ∧
     (execute_trade st i c).grids = st.grids ∧
     (execute_trade st i c).last_traded_price = st.last_traded_price) ∨
    (∃ k g e, st.grids.get? i = some (k, g) ∧
      (execute_trade st i c).trade_log = st.trade_log ++ [e] ∧
      (execute_trade st i c).grids
        = st.grids.set i (k, { g with trade_count := g.trade_count + 1 }) ∧
      (execute_trade st i c).last_traded_price = some g.price) := by
  cases hg : st.grids.get? i with
  | none =>
    left
    simp only [execute_trade, hg]
    exact ⟨trivial, trivial, trivial⟩
  | some e =>
    obtain ⟨k, g⟩ := e
    simp only [execute_trade, hg]
    by_cases hs : g.side = Side.sell
    · rw [if_pos hs]
      by_cases hr : 0 < (fifoLoop g.price g.trade_amount st.coin_inventory 0).1
      · rw [if_pos hr]
        left
        exact ⟨rfl, rfl, rfl⟩
      · rw [if_neg hr]
        right
        exact ⟨k, g, _, rfl, rfl, rfl, rfl⟩
    · rw [if_neg hs]
      by_cases hp : st.usdt < g.trade_amount * g.price * (1 + st.fee_rate)
      · rw [if_pos hp]
        left
        exact ⟨rfl, rfl, rfl⟩
      · rw [if_neg hp]
        right
        exact ⟨k, g, _, rfl, rfl, rfl, rfl⟩

lemma get?_set_self' {α : Type} (l : List α) (i : ℕ) (a : α) (h : i < l.length) :
    (l.set i a).get? i = some a := by
  rw [List.get?_eq_getElem?]
  exact List.getElem?_set_self h

lemma get?_set_ne' {α : Type} (l : List α) {i j : ℕ} (h : i ≠ j) (a : α) :
    (l.set i a).get? j = l.get? j := by
  rw [List.get?_eq_getElem?, List.get?_eq_getElem?]
  exact List.getElem?_set_ne h

/-- Blocking (and possibly count-bumping) one level preserves the per-candle
scan invariant. -/
lemma scanInv_set (st0 st F : BotState) (i : ℕ) (k : ℚ) (g gNew : GridState) (δ : ℕ)
    (hg : st.grids.get? i = some (k, g))
    (hδ : δ = 0 ∨ (δ = 1 ∧ tcAt st i = tcAt st0 i))
    (hFg : F.grids = st.grids.set i (k, gNew))
    (hside : gNew.side = Side.blocked)
    (htcN : gNew.trade_count = g.trade_count + δ)
    (hFlog : F.trade_log.length = st.trade_log.length + δ)
    (h : scanInv st0 st) : scanInv st0 F := by
  obtain ⟨hlen, hlog, htc⟩ := h
  have hi : i < st.grids.length := get?_lt_len hg
  have hg' : st.grids[i]? = some (k, g) := by
    rw [← List.get?_eq_getElem?]
    exact hg
  refine ⟨?_, ?_, ?_⟩
  · rw [hFg, List.length_set]
    exact hlen
  · have hS := sum_tc_set st.grids i (k, g) (k, gNew) hg
    rw [htcN] at hS
    simp only [totalTC, hFg] at *
    omega
  · intro j
    by_cases hj : j = i
    · subst hj
      have hF : tcAt F j = gNew.trade_count := by
        simp [tcAt, hFg, List.getElem?_set_self hi]
      have hFs : sideAt F j = some Side.blocked := by
        simp [sideAt, hFg, List.getElem?_set_self hi, hside]
      have htcg : tcAt st j = g.trade_count := by simp [tcAt, hg']
      rcases hδ with h0 | ⟨h1, heq⟩
      · subst h0
        rcases htc j with hA | ⟨hA, _⟩
        · left
          omega
        · right
          exact ⟨by omega, hFs⟩
      · subst h1
        right
        exact ⟨by omega, hFs⟩
    · have hij : i ≠ j := fun hh => hj hh.symm
      have hF : tcAt F j = tcAt st j := by
        simp [tcAt, hFg, List.getElem?_set_ne hij]
      have hFs : sideAt F j = sideAt st j := by
        simp [sideAt, hFg, List.getElem?_set_ne hij]
      rcases htc j with hA | ⟨hA, hB⟩
      · left
        rw [hF]
        exact hA
      · right
        exact ⟨by rw [hF]; exact hA, by rw [hFs]; exact hB⟩

/-- One grid check of the intrabar scan preserves the scan invariant. -/
lemma scanInv_step (st0 : BotState) (prev current : ℚ) (c : Candle)
    (st : BotState) (i : ℕ) (h : scanInv st0 st) :
    scanInv st0 (scan_grid prev current c st i) := by
  cases hg : st.grids.get? i with
  | none =>
    simp only [scan_grid, hg]
    exact h
  | some e =>
    obtain ⟨k, g⟩ := e
    have hi : i < st.grids.length := get?_lt_len hg
    simp only [scan_grid, hg]
    by_cases hc1 : (prev < g.price ∧ g.price < current ∧ g.side = Side.sell) ∨
        (current < g.price ∧ g.price < prev ∧ g.side = Side.buy)
    · rw [if_pos hc1]
      by_cases hc2 : st.last_traded_price ≠ some g.price ∧ g.price ≠ current
      · rw [if_pos hc2]
        have hsideg : g.side ≠ Side.blocked := by
          rcases hc1 with ⟨_, _, hs⟩ | ⟨_, _, hs⟩ <;> rw [hs] <;> decide
        rcases execute_trade_cases st i c with ⟨hl, hgr, _⟩ | ⟨k', g', e', hg', hl, hgr, _⟩
        · have hEg : (execute_trade st i c).grids.get? i = some (k, g) := by
            rw [hgr]
            exact hg
          simp only [hEg]
          refine scanInv_set st0 st _ i k g { g with side := Side.blocked } 0 hg
            (Or.inl rfl) ?_ rfl rfl ?_ h
          · show (execute_trade st i c).grids.set i (k, { g with side := Side.blocked })
              = st.grids.set i (k, { g with side := Side.blocked })
            rw [hgr]
          · show (execute_trade st i c).trade_log.length = st.trade_log.length + 0
            rw [hl]
            omega
        · have hinj : (k, g) = (k', g') := by
            rw [hg] at hg'
            exact Option.some.inj hg'
          obtain ⟨hk, hgg⟩ := Prod.ext_iff.mp hinj
          subst hk
          subst hgg
          have hEg : (execute_trade st i c).grids.get? i
              = some (k, { g with trade_count := g.trade_count + 1 }) := by
            rw [hgr]
            exact get?_set_self' _ _ _ hi
          simp only [hEg]
          have htcbase : tcAt st i = tcAt st0 i := by
            rcases h.2.2 i with hA | ⟨_, hB⟩
            · exact hA
            · exfalso
              apply hsideg
              have hg2 : st.grids[i]? = some (k, g) := by
                rw [← List.get?_eq_getElem?]
                exact hg
              have hsi : sideAt st i = some g.side := by simp [sideAt, hg2]
              rw [hsi] at hB
              exact Option.some.inj hB
          refine scanInv_set st0 st _ i k g
            ⟨g.price, Side.blocked, g.trade_amount, g.coin_reserved, g.trade_count + 1⟩ 1
            hg (Or.inr ⟨rfl, htcbase⟩) ?_ rfl rfl ?_ h
          · show ((execute_trade st i c).grids.set i
                (k, { { g with trade_count := g.trade_count + 1 } with side := Side.blocked }))
              = st.grids.set i (k, ⟨g.price, Side.blocked, g.trade_amount,
                  g.coin_reserved, g.trade_count + 1⟩)
            rw [hgr, List.set_set]
          · show (execute_trade st i c).trade_log.length = st.trade_log.length + 1
            rw [hl, List.length_append]
            rfl
      · rw [if_neg hc2]
        exact h
    · rw [if_neg hc1]
      exact h

lemma dictSet_side_gsData (k : ℚ) (sd : Side) :
    ∀ d : List (ℚ × GridState),
      (dictSet k (fun g => { g with side := sd }) d).map gsData = d.map gsData := by
  intro d
  induction d with
  | nil => rfl
  | cons a d ih =>
    obtain ⟨k', v'⟩ := a
    by_cases hk : k' = k
    · simp [dictSet, hk, gsData]
    · simp only [dictSet, if_neg hk, List.map_cons, ih]

lemma setSide_gsData (k : ℚ) (sd : Side) (d d' : List (ℚ × GridState))
    (h : setSide k sd d = .ok d') : d'.map gsData = d.map gsData := by
  rw [setSide] at h
  cases hget : dictGet k d with
  | none => rw [hget] at h; cases h
  | some g0 =>
    rw [hget] at h
    cases h
    exact dictSet_side_gsData k sd d

lemma update_loop_gsData (current : ℚ) (blocked : Option ℚ) :
    ∀ (lines : List ℚ) (d d' : List (ℚ × GridState)),
      update_sides_loop current blocked lines d = .ok d' →
      d'.map gsData = d.map gsData := by
  intro lines
  induction lines with
  | nil =>
    intro d d' h
    cases h
    rfl
  | cons price rest ih =>
    intro d d' h
    rw [update_sides_loop] at h
    split_ifs at h with h1 h2 h3 h4
    · exact ih d d' h
    · cases hset : setSide price Side.blocked d with
      | ok d1 =>
        rw [hset] at h
        rw [ih d1 d' h]
        exact setSide_gsData _ _ _ _ hset
      | error e => rw [hset] at h; cases h
    · cases hset : setSide price Side.sell d with
      | ok d1 =>
        rw [hset] at h
        rw [ih d1 d' h]
        exact setSide_gsData _ _ _ _ hset
      | error e => rw [hset] at h; cases h
    · cases hset : setSide price Side.buy d with
      | ok d1 =>
        rw [hset] at h
        rw [ih d1 d' h]
        exact setSide_gsData _ _ _ _ hset
      | error e => rw [hset] at h; cases h
    · exact ih d d' h

/-- `_update_grid_sides` only rewrites sides: counts, keys, prices, amounts
and the log are untouched, so the scan invariant holds relative to the
pre-update state. -/
lemma update_scanInv (st st1 : BotState) (current : ℚ) (blocked : Option ℚ)
    (h : update_grid_sides st current blocked = .ok st1) : scanInv st st1 := by
  rw [update_grid_sides] at h
  cases hloop : update_sides_loop current blocked st.grid_lines st.grids with
  | error e => rw [hloop] at h; cases h
  | ok d =>
    rw [hloop] at h
    cases h
    have hmap : d.map gsData = st.grids.map gsData :=
      update_loop_gsData current blocked st.grid_lines st.grids d hloop
    have hlen : d.length = st.grids.length := by
      have := congrArg List.length hmap
      simpa using this
    have htcmap : d.map (fun e => e.2.trade_count) = st.grids.map (fun e => e.2.trade_count) := by
      have h1 : d.map (fun e => e.2.trade_count)
          = (d.map gsData).map (fun x => x.2.2.2.2) := by
        rw [List.map_map]; rfl
      have h2 : st.grids.map (fun e => e.2.trade_count)
          = (st.grids.map gsData).map (fun x => x.2.2.2.2) := by
        rw [List.map_map]; rfl
      rw [h1, h2, hmap]
    refine ⟨hlen, ?_, ?_⟩
    · simp only [totalTC]
      rw [htcmap]
    · intro j
      left
      simp only [tcAt]
      have : (d.map (fun e => e.2.trade_count))[j]?
          = (st.grids.map (fun e => e.2.trade_count))[j]? := by rw [htcmap]
      rw [List.getElem?_map, List.getElem?_map] at this
      rw [List.get?_eq_getElem?, List.get?_eq_getElem?]
      cases hdj : d[j]? with
      | none =>
        rw [hdj] at this
        cases hsj : st.grids[j]? with
        | none => rfl
        | some b => rw [hsj] at this; cases this
      | some a =>
        rw [hdj] at this
        cases hsj : st.grids[j]? with
        | none => rw [hsj] at this; cases this
        | some b =>
          rw [hsj] at this
          have hv : a.2.trade_count = b.2.trade_count := by simpa using this
          simp [hv]

lemma process_candle_eq (st : BotState) (c : Candle) :
    process_candle st c =
      (update_grid_sides st (st.last_price.getD c.open_)
          (some (st.last_traded_price.getD (st.last_price.getD c.open_)))).map
        (scan_points (st.last_price.getD c.open_) c.close c) := rfl

/-- Processing one candle satisfies the scan invariant relative to the
pre-candle state. -/
lemma process_scanInv (st : BotState) (c : Candle) (st' : BotState)
    (h : process_candle st c = .ok st') : scanInv st st' := by
  rw [process_candle_eq] at h
  cases heq : update_grid_sides st (st.last_price.getD c.open_)
      (some (st.last_traded_price.getD (st.last_price.getD c.open_))) with
  | error e =>
    rw [heq] at h
    have h3 : (Except.error e : Except String BotState) = Except.ok st' := h
    cases h3
  | ok st1 =>
    rw [heq] at h
    have h2 : Except.ok (scan_points (st.last_price.getD c.open_) c.close c st1)
        = Except.ok st' := h
    have hst : scan_points (st.last_price.getD c.open_) c.close c st1 = st' :=
      Except.ok.inj h2
    have h1 : scanInv st st1 := update_scanInv st st1 _ _ heq
    have hstep : ∀ (a : BotState) (i : ℕ), scanInv st a →
        scanInv st (scan_grid (st.last_price.getD c.open_) c.close c a i) :=
      fun a i ha => scanInv_step st _ _ c a i ha
    have hpass : ∀ (a : BotState), scanInv st a →
        scanInv st (scan_pass (st.last_price.getD c.open_) c.close c a) := by
      intro a ha
      exact foldl_inv (scanInv st) (scan_grid (st.last_price.getD c.open_) c.close c)
        (fun x b hx => hstep x b hx) (List.range a.grids.length) a ha
    have hfinal : scanInv st (scan_points (st.last_price.getD c.open_) c.close c st1) :=
      foldl_inv (scanInv st)
        (fun s _ => scan_pass (st.last_price.getD c.open_) c.close c s)
        (fun x b hx => hpass x hx) (List.range 20) st1 h1
    rw [← hst]
    exact hfinal

/-- C6 (confirmed): during one candle each level executes at most one trade
(its trade count rises by at most 1, and the log grows by exactly the total
number of count increments, so at most one entry is logged per level per
candle); and immediately after any executed trade — the moment the scan step
that logged it returns — that level's side is `blocked` and its price is
recorded as the last-traded price. -/
theorem C6_theorem :
    (∀ (st : BotState) (c : Candle) (st' : BotState),
      process_candle st c = .ok st' →
      (∀ i, tcAt st' i ≤ tcAt st i + 1) ∧
      st'.trade_log.length + totalTC st = st.trade_log.length + totalTC st') ∧
    (∀ (prev current : ℚ) (c : Candle) (st : BotState) (i : ℕ),
      (scan_grid prev current c st i).trade_log.length ≠ st.trade_log.length →
      sideAt (scan_grid prev current c st i) i = some Side.blocked ∧
      (scan_grid prev current c st i).last_traded_price = priceAt st i) := by
  constructor
  · intro st c st' h
    obtain ⟨_, hlog, htc⟩ := process_scanInv st c st' h
    refine ⟨?_, hlog⟩
    intro i
    rcases htc i with hA | ⟨hA, _⟩ <;> omega
  · intro prev current c st i hlog
    cases hg : st.grids.get? i with
    | none =>
      have hid : scan_grid prev current c st i = st := by
        simp only [scan_grid, hg]
      rw [hid] at hlog
      exact absurd rfl hlog
    | some e =>
      obtain ⟨k, g⟩ := e
      have hi : i < st.grids.length := get?_lt_len hg
      by_cases hc1 : (prev < g.price ∧ g.price < current ∧ g.side = Side.sell) ∨
          (current < g.price ∧ g.price < prev ∧ g.side = Side.buy)
      · by_cases hc2 : st.last_traded_price ≠ some g.price ∧ g.price ≠ current
        · simp only [scan_grid, hg] at hlog ⊢
          rw [if_pos hc1, if_pos hc2] at hlog ⊢
          rcases execute_trade_cases st i c with ⟨hl, hgr, hltp⟩ | ⟨k', g', e', hg', hl, hgr, hltp⟩
          · exfalso
            apply hlog
            cases hEg : (execute_trade st i c).grids.get? i with
            | none => simp only [hEg]; rw [hl]
            | some e2 =>
              obtain ⟨k2, g2⟩ := e2
              simp only [hEg]
              rw [hl]
          · have hinj : (k, g) = (k', g') := by
              rw [hg] at hg'
              exact Option.some.inj hg'
            obtain ⟨hk, hgg⟩ := Prod.ext_iff.mp hinj
            subst hk
            subst hgg
            have hEg : (execute_trade st i c).grids.get? i
                = some (k, { g with trade_count := g.trade_count + 1 }) := by
              rw [hgr]
              exact get?_set_self' _ _ _ hi
            simp only [hEg]
            constructor
            · have hlenE : i < (execute_trade st i c).grids.length := by
                rw [hgr, List.length_set]
                exact hi
              simp [sideAt, List.getElem?_set_self hlenE]
            · have hpA : priceAt st i = some g.price := by
                have hg2 : st.grids[i]? = some (k, g) := by
                  rw [← List.get?_eq_getElem?]
                  exact hg
                simp [priceAt, hg2]
              rw [hpA]
              exact hltp
        · have hid : scan_grid prev current c st i = st := by
            simp only [scan_grid, hg]
            rw [if_pos hc1, if_neg hc2]
          rw [hid] at hlog
          exact absurd rfl hlog
      · have hid : scan_grid prev current c st i = st := by
          simp only [scan_grid, hg]
          rw [if_neg hc1]
        rw [hid] at hlog
        exact absurd rfl hlog

/-- C6 witness: the per-candle bound across the concrete `bot2` candle (one
executed sell, one rejected sell), and the immediate block-and-record fact at
the executing scan step. -/
theorem C6_witness :
    (∀ i, tcAt bot2F i ≤ tcAt bot2 i + 1) ∧
    bot2F.trade_log.length + totalTC bot2 = bot2.trade_log.length + totalTC bot2F ∧
    sideAt (scan_grid (201/2) (205/2) c2candle bot2 1) 1 = some Side.blocked ∧
    (scan_grid (201/2) (205/2) c2candle bot2 1).last_traded_price = priceAt bot2 1 := by
  obtain ⟨h1, h2⟩ := C6_theorem.1 bot2 c2candle bot2F candle2
  have hlog : (scan_grid (201/2) (205/2) c2candle bot2 1).trade_log.length
      ≠ bot2.trade_log.length := by
    rw [step2_1]
    decide
  obtain ⟨h3, h4⟩ := C6_theorem.2 (201/2) (205/2) c2candle bot2 1 hlog
  exact ⟨h1, h2, h3, h4⟩

lemma invSim_refl (l : List Lot) : invSim l l := rfl

/-- The FIFO loop reads only amounts and prices: on timestamp-equivalent
inventories it returns the same remaining amount, the same profit, and
timestamp-equivalent inventories. -/
lemma fifoLoop_invSim (p : ℚ) : ∀ (l1 l2 : List Lot) (r acc : ℚ), invSim l1 l2 →
    (fifoLoop p r l1 acc).1 = (fifoLoop p r l2 acc).1 ∧
    (fifoLoop p r l1 acc).2.1 = (fifoLoop p r l2 acc).2.1 ∧
    invSim (fifoLoop p r l1 acc).2.2 (fifoLoop p r l2 acc).2.2 := by
  intro l1
  induction l1 with
  | nil =>
    intro l2 r acc h
    have h' : ([] : List Lot) = l2.map eraseLotTs := h
    have h2 : l2 = [] := List.map_eq_nil_iff.mp h'.symm
    subst h2
    exact ⟨rfl, rfl, rfl⟩
  | cons a l1' ih =>
    intro l2 r acc h
    cases l2 with
    | nil =>
      have h' : eraseLotTs a :: l1'.map eraseLotTs = ([] : List Lot) := h
      cases h'
    | cons b l2' =>
      have h' : eraseLotTs a :: l1'.map eraseLotTs
          = eraseLotTs b :: l2'.map eraseLotTs := h
      have hhead : eraseLotTs a = eraseLotTs b := (List.cons.injEq _ _ _ _ ▸ h').1
      have htail : invSim l1' l2' := (List.cons.injEq _ _ _ _ ▸ h').2
      have ham : a.amount = b.amount := by
        have := congrArg Lot.amount hhead
        simpa [eraseLotTs] using this
      have hpr : a.price = b.price := by
        have := congrArg Lot.price hhead
        simpa [eraseLotTs] using this
      by_cases hr : r ≤ 0
      · rw [fifoLoop_nonpos p r _ acc hr, fifoLoop_nonpos p r _ acc hr]
        exact ⟨rfl, rfl, h⟩
      · rw [fifoLoop_cons p r acc a l1' hr, fifoLoop_cons p r acc b l2' hr]
        by_cases hle : a.amount ≤ r
        · rw [if_pos hle, if_pos (ham ▸ hle)]
          rw [← ham, ← hpr]
          exact ih l2' (r - a.amount) (acc + (p - a.price) * a.amount) htail
        · rw [if_neg hle, if_neg (ham ▸ hle)]
          refine ⟨rfl, by rw [hpr], ?_⟩
          show eraseLotTs ⟨a.amount - r, a.price, a.ts⟩ :: l1'.map eraseLotTs
            = eraseLotTs ⟨b.amount - r, b.price, b.ts⟩ :: l2'.map eraseLotTs
          rw [show eraseLotTs ⟨a.amount - r, a.price, a.ts⟩
              = eraseLotTs ⟨b.amount - r, b.price, b.ts⟩ by simp [eraseLotTs, ham, hpr]]
          rw [show l1'.map eraseLotTs = l2'.map eraseLotTs from htail]

/-- `_execute_trade` is oblivious to lot timestamps: on timestamp-equivalent
states it makes the same decisions and produces timestamp-equivalent states
(new lots are stamped with the candle timestamp on both sides). -/
lemma execute_trade_sim (st : BotState) (inv2 : List Lot) (i : ℕ) (c : Candle)
    (h : invSim st.coin_inventory inv2) :
    botSim (execute_trade st i c)
      (execute_trade { st with coin_inventory := inv2 } i c) := by
  cases hg : st.grids.get? i with
  | none =>
    have hg2 : ({ st with coin_inventory := inv2 } : BotState).grids.get? i = none := hg
    simp only [execute_trade, hg, hg2]
    exact ⟨rfl, h⟩
  | some e =>
    obtain ⟨k, g⟩ := e
    have hg2 : ({ st with coin_inventory := inv2 } : BotState).grids.get? i = some (k, g) := hg
    simp only [execute_trade, hg, hg2]
    obtain ⟨hrem, hprof, hinv⟩ :=
      fifoLoop_invSim g.price st.coin_inventory inv2 g.trade_amount 0 h
    by_cases hs : g.side = Side.sell
    · rw [if_pos hs, if_pos hs]
      by_cases hr : 0 < (fifoLoop g.price g.trade_amount st.coin_inventory 0).1
      · rw [if_pos hr, if_pos (hrem ▸ hr)]
        exact ⟨rfl, hinv⟩
      · rw [if_neg hr, if_neg (hrem ▸ hr)]
        refine ⟨?_, hinv⟩
        rw [hprof]
    · rw [if_neg hs, if_neg hs]
      by_cases hp : st.usdt < g.trade_amount * g.price * (1 + st.fee_rate)
      · rw [if_pos hp, if_pos hp]
        exact ⟨rfl, h⟩
      · rw [if_neg hp, if_neg hp]
        refine ⟨rfl, ?_⟩
        show (st.coin_inventory ++ [Lot.mk g.trade_amount g.price c.ts]).map eraseLotTs
          = (inv2 ++ [Lot.mk g.trade_amount g.price c.ts]).map eraseLotTs
        rw [List.map_append, List.map_append]
        rw [show st.coin_inventory.map eraseLotTs = inv2.map eraseLotTs from h]

lemma botSim_fields (s1 s2 : BotState) (h : botSim s1 s2) :
    s2.grids = s1.grids ∧ s2.trade_log = s1.trade_log ∧ s2.usdt = s1.usdt ∧
    s2.coin = s1.coin ∧ s2.last_price = s1.last_price ∧
    s2.last_traded_price = s1.last_traded_price ∧ s2.grid_lines = s1.grid_lines ∧
    s2.fee_rate = s1.fee_rate ∧ s2.initial_coin = s1.initial_coin ∧
    s2.base_amount_usdt = s1.base_amount_usdt := by
  obtain ⟨he, _⟩ := h
  rw [he]
  exact ⟨rfl, rfl, rfl, rfl, rfl, rfl, rfl, rfl, rfl, rfl⟩

/-- One scan step preserves timestamp-equivalence of states. -/
lemma scan_grid_sim (prev current : ℚ) (c : Candle) (s1 s2 : BotState) (i : ℕ)
    (h : botSim s1 s2) :
    botSim (scan_grid prev current c s1 i) (scan_grid prev current c s2 i) := by
  obtain ⟨he, hinv⟩ := h
  rw [he]
  generalize s2.coin_inventory = inv2 at hinv
  cases hg : s1.grids.get? i with
  | none =>
    have hg2 : ({ s1 with coin_inventory := inv2 } : BotState).grids.get? i = none := hg
    simp only [scan_grid, hg, hg2]
    exact ⟨rfl, hinv⟩
  | some e =>
    obtain ⟨k, g⟩ := e
    have hg2 : ({ s1 with coin_inventory := inv2 } : BotState).grids.get? i = some (k, g) := hg
    simp only [scan_grid, hg, hg2]
    by_cases hc1 : (prev < g.price ∧ g.price < current ∧ g.side = Side.sell) ∨
        (current < g.price ∧ g.price < prev ∧ g.side = Side.buy)
    · rw [if_pos hc1, if_pos hc1]
      by_cases hc2 : s1.last_traded_price ≠ some g.price ∧ g.price ≠ current
      · rw [if_pos hc2, if_pos hc2]
        have hbs := execute_trade_sim s1 inv2 i c hinv
        obtain ⟨heE, hinvE⟩ := hbs
        have hgrE : (execute_trade { s1 with coin_inventory := inv2 } i c).grids
            = (execute_trade s1 i c).grids := by
          rw [heE]
        cases hEg : (execute_trade s1 i c).grids.get? i with
        | none =>
          have hEg2 : (execute_trade { s1 with coin_inventory := inv2 } i c).grids.get? i
              = none := by
            rw [hgrE]
            exact hEg
          simp only [hEg, hEg2]
          refine ⟨?_, hinvE⟩
          rw [heE]
        | some e2 =>
          obtain ⟨k2, g2⟩ := e2
          have hEg2 : (execute_trade { s1 with coin_inventory := inv2 } i c).grids.get? i
              = some (k2, g2) := by
            rw [hgrE]
            exact hEg
          simp only [hEg, hEg2]
          refine ⟨?_, hinvE⟩
          rw [heE]
      · rw [if_neg hc2, if_neg hc2]
        exact ⟨rfl, hinv⟩
    · rw [if_neg hc1, if_neg hc1]
      exact ⟨rfl, hinv⟩

lemma foldl_rel {α β : Type} (R : α → α → Prop) (f : α → β → α)
    (hstep : ∀ a b x, R a b → R (f a x) (f b x)) :
    ∀ (l : List β) (a b : α), R a b → R (l.foldl f a) (l.foldl f b) := by
  intro l
  induction l with
  | nil => intro a b h; exact h
  | cons x l ih =>
    intro a b h
    rw [List.foldl_cons, List.foldl_cons]
    exact ih (f a x) (f b x) (hstep a b x h)

/-- A whole scan pass, and the 20-point scan, preserve timestamp-equivalence. -/
lemma scan_pass_sim (prev current : ℚ) (c : Candle) (s1 s2 : BotState)
    (h : botSim s1 s2) :
    botSim (scan_pass prev current c s1) (scan_pass prev current c s2) := by
  have hgr : s2.grids = s1.grids := (botSim_fields s1 s2 h).1
  rw [scan_pass, scan_pass, hgr]
  exact foldl_rel botSim (scan_grid prev current c)
    (fun a b x hab => scan_grid_sim prev current c a b x hab)
    (List.range s1.grids.length) s1 s2 h

lemma scan_points_sim (prev current : ℚ) (c : Candle) (s1 s2 : BotState)
    (h : botSim s1 s2) :
    botSim (scan_points prev current c s1) (scan_points prev current c s2) := by
  rw [scan_points, scan_points]
  exact foldl_rel botSim (fun s _ => scan_pass prev current c s)
    (fun a b x hab => scan_pass_sim prev current c a b hab)
    (List.range 20) s1 s2 h

/-- `_update_grid_sides` never reads the inventory. -/
lemma update_grid_sides_sim (st : BotState) (inv2 : List Lot) (current : ℚ)
    (blocked : Option ℚ) :
    update_grid_sides { st with coin_inventory := inv2 } current blocked
      = Except.map (fun s => { s with coin_inventory := inv2 })
          (update_grid_sides st current blocked) := by
  rw [update_grid_sides, update_grid_sides]
  cases hloop : update_sides_loop current blocked st.grid_lines st.grids with
  | error e => rfl
  | ok d => rfl

/-- `_update_grid_sides` leaves the inventory untouched. -/
lemma update_grid_sides_inv (st : BotState) (cur : ℚ) (blk : Option ℚ) (u : BotState)
    (hu : update_grid_sides st cur blk = Except.ok u) :
    u.coin_inventory = st.coin_inventory := by
  rw [update_grid_sides] at hu
  cases hl : update_sides_loop cur blk st.grid_lines st.grids with
  | error e =>
    rw [hl] at hu
    cases hu
  | ok d =>
    rw [hl] at hu
    have hd : ({ st with grids := d } : BotState) = u := Except.ok.inj hu
    rw [← hd]

/-- One candle of processing preserves timestamp-equivalence: either both runs
raise the same exception, or both succeed with timestamp-equivalent states. -/
lemma process_candle_sim (c : Candle) (s1 s2 : BotState) (h : botSim s1 s2) :
    (∃ e, process_candle s1 c = Except.error e ∧ process_candle s2 c = Except.error e) ∨
    (∃ t1 t2, process_candle s1 c = Except.ok t1 ∧ process_candle s2 c = Except.ok t2 ∧
      botSim t1 t2) := by
  obtain ⟨he2, hinv⟩ := h
  have hlp : s2.last_price = s1.last_price := by rw [he2]
  have hltp : s2.last_traded_price = s1.last_traded_price := by rw [he2]
  rw [process_candle_eq, process_candle_eq, hlp, hltp, he2]
  rw [update_grid_sides_sim s1 s2.coin_inventory]
  cases hu : update_grid_sides s1 (s1.last_price.getD c.open_)
      (some (s1.last_traded_price.getD (s1.last_price.getD c.open_))) with
  | error e =>
    left
    exact ⟨e, rfl, rfl⟩
  | ok u =>
    right
    refine ⟨_, _, rfl, rfl, ?_⟩
    refine scan_points_sim _ _ c u _ ⟨rfl, ?_⟩
    show u.coin_inventory.map eraseLotTs = s2.coin_inventory.map eraseLotTs
    rw [update_grid_sides_inv s1 _ _ u hu]
    exact hinv

/-- The candle loop preserves timestamp-equivalence end to end. -/
lemma run_candles_sim : ∀ (cs : List Candle) (s1 s2 : BotState), botSim s1 s2 →
    (∃ e, run_candles s1 cs = Except.error e ∧ run_candles s2 cs = Except.error e) ∨
    (∃ t1 t2, run_candles s1 cs = Except.ok t1 ∧ run_candles s2 cs = Except.ok t2 ∧
      botSim t1 t2) := by
  intro cs
  induction cs with
  | nil =>
    intro s1 s2 h
    right
    exact ⟨s1, s2, rfl, rfl, h⟩
  | cons c rest ih =>
    intro s1 s2 h
    simp only [run_candles]
    rcases process_candle_sim c s1 s2 h with ⟨e, h1, h2⟩ | ⟨t1, t2, h1, h2, hb⟩
    · rw [h1, h2]
      left
      exact ⟨e, rfl, rfl⟩
    · rw [h1, h2]
      exact ih t1 t2 hb

/-- `_initialize_grids` with a given initial price, with the seed-purchase
arithmetic expanded. -/
lemma init_grids_some (st : BotState) (ti p now : ℚ) :
    init_grids st ti (some p) now =
      match init_grids_loop p st.base_amount_usdt st.fee_rate st.grid_lines st.grids with
      | Except.ok d => Except.ok { st with
          usdt := st.usdt - (ti / 2 / (p * (1 + st.fee_rate)) * p
            + ti / 2 / (p * (1 + st.fee_rate)) * p * st.fee_rate),
          coin := st.coin + ti / 2 / (p * (1 + st.fee_rate)),
          initial_coin := ti / 2 / (p * (1 + st.fee_rate)),
          coin_inventory := st.coin_inventory
            ++ [Lot.mk (ti / 2 / (p * (1 + st.fee_rate))) p now],
          grids := d }
      | Except.error e => Except.error e := rfl

/-- Initialization at two different wall-clock times: same outcome up to the
seed lot timestamp. -/
lemma init_grids_sim (st : BotState) (ti p now1 now2 : ℚ) :
    (∃ e, init_grids st ti (some p) now1 = Except.error e ∧
          init_grids st ti (some p) now2 = Except.error e) ∨
    (∃ t1 t2, init_grids st ti (some p) now1 = Except.ok t1 ∧
          init_grids st ti (some p) now2 = Except.ok t2 ∧ botSim t1 t2) := by
  rw [init_grids_some, init_grids_some]
  cases hl : init_grids_loop p st.base_amount_usdt st.fee_rate st.grid_lines st.grids with
  | error e =>
    left
    exact ⟨e, rfl, rfl⟩
  | ok d =>
    right
    refine ⟨_, _, rfl, rfl, rfl, ?_⟩
    show (st.coin_inventory
        ++ [Lot.mk (ti / 2 / (p * (1 + st.fee_rate))) p now1]).map eraseLotTs
      = (st.coin_inventory
        ++ [Lot.mk (ti / 2 / (p * (1 + st.fee_rate))) p now2]).map eraseLotTs
    simp [eraseLotTs]

/-- Constructing the bot at two different wall-clock times: same exception, or
timestamp-equivalent states. -/
lemma mkGridBot_sim (ti lp up : ℚ) (ng : ℕ) (gm : String) (fr p now1 now2 ratio : ℚ) :
    (∃ e, mkGridBot ti lp up ng gm fr (some p) now1 ratio = Except.error e ∧
          mkGridBot ti lp up ng gm fr (some p) now2 ratio = Except.error e) ∨
    (∃ t1 t2, mkGridBot ti lp up ng gm fr (some p) now1 ratio = Except.ok t1 ∧
          mkGridBot ti lp up ng gm fr (some p) now2 ratio = Except.ok t2 ∧
          botSim t1 t2) := by
  rw [mkGridBot, mkGridBot]
  cases hv : validate_inputs ti lp up ng fr with
  | error e =>
    left
    exact ⟨e, rfl, rfl⟩
  | ok u =>
    exact init_grids_sim
      { grid_lines := calculate_grid_lines lp up ng gm ratio
        fee_rate := fr
        usdt := ti
        coin := 0
        initial_coin := 0
        trade_log := []
        grids := []
        last_price := some p
        last_traded_price := none
        coin_inventory := []
        base_amount_usdt := ti * (99/100) / (ng : ℚ) } ti p now1 now2

/-- `simulate_grid_bot` on a non-empty frame, with its let-bindings expanded. -/
lemma simulate_cons (c0 : Candle) (rest : List Candle) (ti lp up : ℚ) (ng : ℕ)
    (gm : String) (fr now vt ratio : ℚ) :
    simulate_grid_bot (c0 :: rest) ti lp up ng gm fr now vt ratio =
      match mkGridBot ti lp up ng gm fr (some c0.close) now ratio with
      | Except.error e => errorResult ti vt e
      | Except.ok bot0 =>
        match run_candles bot0 rest with
        | Except.error e => errorResult ti vt e
        | Except.ok bot =>
          { initial_investment := ti
            final_value := bot.usdt + bot.coin * (rest.getLast?.getD c0).close
            profit_usdt := bot.usdt + bot.coin * (rest.getLast?.getD c0).close - ti
            profit_pct := (bot.usdt + bot.coin * (rest.getLast?.getD c0).close - ti)
              / ti * 100
            fees_paid := (bot.trade_log.map (fun t => t.fee)).sum
            num_trades := bot.trade_log.length
            trade_log := bot.trade_log
            grid_lines := bot.grid_lines
            final_usdt := bot.usdt
            final_coin := bot.coin
            initial_coin := bot.initial_coin
            reserved_coin := 0
            initial_price := c0.close
            final_price := (rest.getLast?.getD c0).close
            price_change_pct := ((rest.getLast?.getD c0).close - c0.close) / c0.close * 100
            bot_version := vt
            error := none } := rfl

/-- The `bot_version` field of every simulation result is exactly the
module-load wall-clock stamp. -/
lemma simulate_bot_version (df : List Candle) (ti lp up : ℚ) (ng : ℕ) (gm : String)
    (fr now vt ratio : ℚ) :
    (simulate_grid_bot df ti lp up ng gm fr now vt ratio).bot_version = vt := by
  cases df with
  | nil => rfl
  | cons c0 rest =>
    rw [simulate_grid_bot]
    split
    · rfl
    · split
      · rfl
      · rfl

/-- C9 counterexample: two runs of `simulate_grid_bot` on identical candles
and identical strategy parameters, differing only in the wall-clock time at
which the module was loaded (the `datetime.now()` embedded in `BOT_VERSION`),
return different `SimulationResult`s: the `bot_version` field differs. -/
theorem C9_counterexample :
    simulate_grid_bot [c0Flat, cFlat] 1000 100 120 2 "arithmetic" (1/1000) 0 0 0
      ≠ simulate_grid_bot [c0Flat, cFlat] 1000 100 120 2 "arithmetic" (1/1000) 0 1 0 := by
  intro h
  have h0 := simulate_bot_version [c0Flat, cFlat] 1000 100 120 2 "arithmetic" (1/1000) 0 0 0
  have h1 := simulate_bot_version [c0Flat, cFlat] 1000 100 120 2 "arithmetic" (1/1000) 0 1 0
  rw [h, h1] at h0
  norm_num at h0

/-- C9 (corrected): the simulation has no randomness, and its only wall-clock
dependence is the `datetime.now()` baked into the `BOT_VERSION` string at
module load (lot timestamps from `pd.Timestamp.now()` never reach the log or
the result).  Hence two runs on identical candles and parameters — at
arbitrary wall-clock times `now1`/`vt1` and `now2`/`vt2` — produce identical
trade logs, and results identical in every field except `bot_version`. -/
theorem C9_theorem (df : List Candle) (ti lp up : ℚ) (ng : ℕ) (gm : String)
    (fr now1 vt1 now2 vt2 ratio : ℚ) :
    (simulate_grid_bot df ti lp up ng gm fr now1 vt1 ratio).trade_log
      = (simulate_grid_bot df ti lp up ng gm fr now2 vt2 ratio).trade_log ∧
    simulate_grid_bot df ti lp up ng gm fr now1 vt1 ratio
      = { simulate_grid_bot df ti lp up ng gm fr now2 vt2 ratio with
          bot_version := vt1 } := by
  have key : simulate_grid_bot df ti lp up ng gm fr now1 vt1 ratio
      = { simulate_grid_bot df ti lp up ng gm fr now2 vt2 ratio with
          bot_version := vt1 } := by
    cases df with
    | nil => rfl
    | cons c0 rest =>
      rw [simulate_cons, simulate_cons]
      rcases mkGridBot_sim ti lp up ng gm fr c0.close now1 now2 ratio with
        ⟨e, h1, h2⟩ | ⟨t1, t2, h1, h2, hb⟩
      · rw [h1, h2]
        rfl
      · rw [h1, h2]
        rcases run_candles_sim rest t1 t2 hb with ⟨e, g1, g2⟩ | ⟨u1, u2, g1, g2, gb⟩
        · simp only [g1, g2]
          try rfl
        · simp only [g1, g2]
          obtain ⟨he, _⟩ := gb
          rw [he]
          try rfl
  exact ⟨by rw [key], key⟩

end GridDash
